import Mathlib

/-
  Verification development for the buffering demuxer layer (demux/demux.c).

  Shallow embedding conventions:
  * C doubles holding timestamps are modelled as exact rationals; the sentinel
    MP_NOPTS_VALUE is the value -(2^63) used by the source.
  * size_t arithmetic is 64-bit wrap-around arithmetic on naturals (szAdd/szSub).
  * Singly linked packet lists become Lean lists in head-to-tail order; the
    dp->next pointer is the list order, and pointer identity of packets is
    modelled by the pid field.  next_prune_target / keyframe_latest /
    reader_head pointers are stored as Option pid.
  * The struct demux_internal invariant current_range == ranges[num_ranges-1]
    is represented by keeping the current range as the last list element.
-/

namespace Demux

/-- Sentinel timestamp MP_NOPTS_VALUE: the source uses the double value
-(2^63) for "no timestamp". -/
def MP_NOPTS_VALUE : ℚ := -(2 ^ 63)

/-- Macro PTS_OR_DEF(a, def): return a, or if that is NOPTS, the default. -/
def PTS_OR_DEF (a d : ℚ) : ℚ := if a = MP_NOPTS_VALUE then d else a

/-- Macro MP_PTS_MIN: minimum where NOPTS loses against the other operand. -/
def MP_PTS_MIN (a b : ℚ) : ℚ := min (PTS_OR_DEF a b) (PTS_OR_DEF b a)

/-- Macro MP_PTS_MAX: maximum where NOPTS loses against the other operand. -/
def MP_PTS_MAX (a b : ℚ) : ℚ := max (PTS_OR_DEF a b) (PTS_OR_DEF b a)

/-- Macro MP_ADD_PTS: add an offset, NOPTS absorbing. -/
def MP_ADD_PTS (a b : ℚ) : ℚ := if a = MP_NOPTS_VALUE then a else a + b

/-- Modulus of size_t arithmetic (64-bit). -/
def W64 : ℕ := 2 ^ 64

/-- Wrap-around size_t addition. -/
def szAdd (a b : ℕ) : ℕ := (a + b) % W64

/-- Wrap-around size_t subtraction. -/
def szSub (a b : ℕ) : ℕ := (a + (W64 - b % W64)) % W64

/-- Stream types used by the cache logic. -/
inductive StreamType where
  | video
  | audio
  | sub
deriving DecidableEq, Repr

/-- Fields of struct demux_packet that demux.c reads or writes.  startTs and
endTs are the segment bounds dp->start and dp->end. -/
structure Packet where
  pid : ℕ
  pts : ℚ
  dts : ℚ
  pos : ℤ
  len : ℕ
  keyframe : Bool
  segmented : Bool
  kf_seek_pts : ℚ
  startTs : ℚ
  endTs : ℚ
  stream : ℤ
deriving DecidableEq, Repr

/-- Modelled from the spec: estimate_packet(packet) -> bytes.  The body of
demux_packet_estimate_total_size lives in demux/demux_packet.c, which is not
part of the sources; the spec only fixes that it is a per-packet byte
estimate, so it is modelled as the payload length plus a constant overhead. -/
def demux_packet_estimate_total_size (dp : Packet) : ℕ := dp.len + 64

/-- Struct demux_queue. -/
structure Queue where
  packets : List Packet
  next_prune_target : Option ℕ
  keyframe_latest : Option ℕ
  correct_dts : Bool
  correct_pos : Bool
  last_pos : ℤ
  last_dts : ℚ
  last_ts : ℚ
  keyframe_pts : ℚ
  keyframe_end_pts : ℚ
  seek_start : ℚ
  seek_end : ℚ
deriving DecidableEq, Repr

/-- Struct demux_stream (the mutable per-stream state). -/
structure Stream where
  stype : StreamType
  selected : Bool
  eager : Bool
  refreshing : Bool
  need_refresh : Bool
  eof : Bool
  skip_to_keyframe : Bool
  attached_picture : Bool
  attached_picture_added : Bool
  ignore_eof : Bool
  reader_head : Option ℕ
  base_ts : ℚ
  last_br_ts : ℚ
  last_br_bytes : ℕ
  bitrate : ℚ
  fw_packs : ℕ
  fw_bytes : ℕ
  global_correct_dts : Bool
  global_correct_pos : Bool
deriving DecidableEq, Repr

/-- Struct demux_cached_range: queues indexed by stream index (list position),
plus the aggregated seek interval. -/
structure Range where
  queues : List Queue
  seek_start : ℚ
  seek_end : ℚ
deriving DecidableEq, Repr

/-- Seek flag bits SEEK_FACTOR / SEEK_FORWARD / SEEK_HR as a record. -/
structure SeekFlags where
  factor : Bool
  forward : Bool
  hr : Bool
deriving DecidableEq, Repr

/-- Constant SEEK_HR alone. -/
def SEEK_HR : SeekFlags := ⟨false, false, true⟩

/-- Struct demux_internal: the fields touched by the cache logic, together
with the demuxer-level seekability flags read by demux_seek. -/
structure DemuxState where
  streams : List Stream
  ranges : List Range
  total_bytes : ℕ
  fw_bytes : ℕ
  max_bytes : ℕ
  max_bytes_bw : ℕ
  min_secs : ℚ
  seekable_cache : Bool
  warned_queue_overflow : Bool
  filepos : ℤ
  seeking : Bool
  seek_flags : SeekFlags
  seek_pts : ℚ
  eof : Bool
  last_eof : Bool
  idle : Bool
  reading : Bool
  initial_state : Bool
  ts_offset : ℚ
  ref_pts : ℚ
  threading : Bool
  seekable : Bool
  partially_seekable : Bool
  has_seek_fn : Bool
deriving DecidableEq, Repr

/-- Function clear_queue(): all fields are reset to constants, so the result
does not depend on the previous contents.  The per-packet total_bytes
subtraction done by the C function is performed by the state-level callers
(via subBytes). -/
def clear_queue : Queue :=
  { packets := []
    next_prune_target := none
    keyframe_latest := none
    seek_start := MP_NOPTS_VALUE
    seek_end := MP_NOPTS_VALUE
    correct_dts := true
    correct_pos := true
    last_pos := -1
    last_ts := MP_NOPTS_VALUE
    last_dts := MP_NOPTS_VALUE
    keyframe_pts := MP_NOPTS_VALUE
    keyframe_end_pts := MP_NOPTS_VALUE }

/-- Default stream record (corresponds to the zero-initialised demux_stream
with the two global_correct flags set, as in demux_add_sh_stream_locked). -/
def defaultStream : Stream :=
  { stype := StreamType.video
    selected := false
    eager := false
    refreshing := false
    need_refresh := false
    eof := false
    skip_to_keyframe := false
    attached_picture := false
    attached_picture_added := false
    ignore_eof := false
    reader_head := none
    base_ts := MP_NOPTS_VALUE
    last_br_ts := MP_NOPTS_VALUE
    last_br_bytes := 0
    bitrate := -1
    fw_packs := 0
    fw_bytes := 0
    global_correct_dts := true
    global_correct_pos := true }

/-- Empty range (used as the getD default where C would have dereferenced a
pointer that its invariants guarantee to be valid). -/
def emptyRange : Range := ⟨[], MP_NOPTS_VALUE, MP_NOPTS_VALUE⟩

/-- Current range: always the last element of the LRU-ordered range list. -/
def currentRange (s : DemuxState) : Range := (s.ranges.getLast?).getD emptyRange

/-- Queue of stream n inside the current range (ds->queue). -/
def currentQueue (s : DemuxState) (n : ℕ) : Queue :=
  ((currentRange s).queues[n]?).getD clear_queue

/-- All packets of a range, in queue order. -/
def rangePackets (r : Range) : List Packet := (r.queues.map Queue.packets).flatten

/-- Sequential size_t subtraction of the estimated sizes of a packet list
(one remove_packet / clear_queue style subtraction per packet). -/
def subBytes (t : ℕ) (ps : List Packet) : ℕ :=
  ps.foldl (fun a p => szSub a (demux_packet_estimate_total_size p)) t

/-- Loop body of update_seek_ranges() (demux.c:396-409): fold over the
(ds->selected, queue->seek_start, queue->seek_end) triples, with the early
break to NOPTS when a selected queue has NOPTS on either end. -/
def usrFold : List (Bool × ℚ × ℚ) → ℚ → ℚ → ℚ × ℚ
  | [], st, en => (st, en)
  | (sel, qs, qe) :: rest, st, en =>
    if sel then
      let st1 := MP_PTS_MAX st qs
      let en1 := MP_PTS_MIN en qe
      if qs = MP_NOPTS_VALUE ∨ qe = MP_NOPTS_VALUE then
        (MP_NOPTS_VALUE, MP_NOPTS_VALUE)
      else usrFold rest st1 en1
    else usrFold rest st en

/-- Function update_seek_ranges() (demux.c:392-413) on the list of
(selected, seek_start, seek_end) triples of the range's queues. -/
def update_seek_ranges (queues : List (Bool × ℚ × ℚ)) : ℚ × ℚ :=
  let r := usrFold queues MP_NOPTS_VALUE MP_NOPTS_VALUE
  if r.1 ≥ r.2 then (MP_NOPTS_VALUE, MP_NOPTS_VALUE) else r

/-- Triples (ds->selected, queue->seek_start, queue->seek_end) for a range's
queues, given the per-stream selected flags. -/
def queueSel (sels : List Bool) (qs : List Queue) : List (Bool × ℚ × ℚ) :=
  (sels.zip qs).map fun p => (p.1, p.2.seek_start, p.2.seek_end)

/-- Range-level update_seek_ranges: recompute the aggregate seek interval. -/
def updateRangeSeek (sels : List Bool) (r : Range) : Range :=
  let v := update_seek_ranges (queueSel sels r.queues)
  { r with seek_start := v.1, seek_end := v.2 }

/-- Maximum of a rational list, NOPTS for the empty list (spec side for C1). -/
def listMax : List ℚ → ℚ
  | [] => MP_NOPTS_VALUE
  | x :: xs => xs.foldl max x

/-- Minimum of a rational list, NOPTS for the empty list (spec side for C1). -/
def listMin : List ℚ → ℚ
  | [] => MP_NOPTS_VALUE
  | x :: xs => xs.foldl min x

/-- Values seek_start of the selected queues (spec side for C1). -/
def selStarts : List (Bool × ℚ × ℚ) → List ℚ
  | [] => []
  | (sel, qs, _) :: rest => if sel then qs :: selStarts rest else selStarts rest

/-- Values seek_end of the selected queues (spec side for C1). -/
def selEnds : List (Bool × ℚ × ℚ) → List ℚ
  | [] => []
  | (sel, _, qe) :: rest => if sel then qe :: selEnds rest else selEnds rest

/-- Spec-side restatement of claim C1: intersect the seek intervals of the
selected queues; if any selected queue has NOPTS on either end, or the
resulting interval is empty or inverted, both fields become NOPTS. -/
def update_seek_ranges_spec (queues : List (Bool × ℚ × ℚ)) : ℚ × ℚ :=
  if ∃ q ∈ queues, q.1 = true ∧ (q.2.1 = MP_NOPTS_VALUE ∨ q.2.2 = MP_NOPTS_VALUE) then
    (MP_NOPTS_VALUE, MP_NOPTS_VALUE)
  else
    let st := listMax (selStarts queues)
    let en := listMin (selEnds queues)
    if st ≥ en then (MP_NOPTS_VALUE, MP_NOPTS_VALUE) else (st, en)

/-- Function clear_cached_range() on a range value: clear every queue, then
refresh the aggregate interval (state-level callers subtract the freed
bytes). -/
def clearRange (sels : List Bool) (r : Range) : Range :=
  updateRangeSeek sels { r with queues := r.queues.map (fun _ => clear_queue) }

/-- Function free_empty_cached_ranges() (demux.c:481-493): drop every
non-current range whose aggregate seek_start is NOPTS, freeing its packets.
Returns the new state together with the freed packets. -/
def free_empty_cached_ranges (s : DemuxState) : DemuxState × List Packet :=
  if s.ranges = [] then (s, [])
  else
    let body := s.ranges.dropLast
    let cur := (s.ranges.getLast?).getD emptyRange
    let dropped := body.filter (fun r => decide (r.seek_start = MP_NOPTS_VALUE))
    let kept := body.filter (fun r => !decide (r.seek_start = MP_NOPTS_VALUE))
    let freed := (dropped.map rangePackets).flatten
    ({ s with ranges := kept ++ [cur], total_bytes := subBytes s.total_bytes freed }, freed)

/-- Function ds_clear_reader_state() (demux.c:495-508), without the
in->fw_bytes update, which clear_reader_state performs per stream. -/
def ds_clear_reader_state (d : Stream) : Stream :=
  { d with reader_head := none
           eof := false
           base_ts := MP_NOPTS_VALUE
           last_br_ts := MP_NOPTS_VALUE
           last_br_bytes := 0
           bitrate := -1
           skip_to_keyframe := false
           attached_picture_added := false
           fw_bytes := 0
           fw_packs := 0 }

/-- Function clear_reader_state() (demux.c:2089-2096). -/
def clear_reader_state (s : DemuxState) : DemuxState :=
  { s with streams := s.streams.map ds_clear_reader_state
           fw_bytes := s.streams.foldl (fun a d => szSub a d.fw_bytes) s.fw_bytes
           warned_queue_overflow := false
           filepos := -1 }

/-- All packets buffered anywhere in the state. -/
def allPackets (s : DemuxState) : List Packet := (s.ranges.map rangePackets).flatten

/-- Sum of the estimated sizes of all buffered packets. -/
def sumSizes (s : DemuxState) : ℕ :=
  ((allPackets s).map demux_packet_estimate_total_size).sum

/-- Function demux_flush() (demux.c:2099-2110): clear the reader state, clear
every cached range, then drop the emptied non-current ranges. -/
def demux_flush (s : DemuxState) : DemuxState :=
  let s1 := clear_reader_state s
  let sels := s1.streams.map (fun d => d.selected)
  let s2 := { s1 with ranges := s1.ranges.map (clearRange sels)
                      total_bytes := subBytes s1.total_bytes (allPackets s1) }
  (free_empty_cached_ranges s2).1

/-- Result of the packet-removal loop of prune_old_packets (demux.c:1338-1343):
the remaining packets, the surviving next_prune_target / keyframe_latest
pointers, and the packets removed (each was an argument of remove_packet). -/
structure PruneRes where
  remaining : List Packet
  npt : Option ℕ
  kl : Option ℕ
  removed : List Packet
deriving DecidableEq, Repr

/-- Loop while (!done && queue->head && queue->head != ds->reader_head)
{ done = next_prune_target == head; remove_packet(queue, NULL, head); }.
remove_packet nulls next_prune_target / keyframe_latest when it removes the
packet they point at. -/
def pruneLoopGo (rh : Option ℕ) : Option ℕ → Option ℕ → List Packet → PruneRes
  | npt, kl, [] => ⟨[], npt, kl, []⟩
  | npt, kl, dp :: rest =>
    if rh = some dp.pid then ⟨dp :: rest, npt, kl, []⟩
    else
      let done := npt = some dp.pid
      let npt1 := if npt = some dp.pid then none else npt
      let kl1 := if kl = some dp.pid then none else kl
      if done then ⟨rest, npt1, kl1, [dp]⟩
      else
        let r := pruneLoopGo rh npt1 kl1 rest
        ⟨r.remaining, r.npt, r.kl, dp :: r.removed⟩

/-- Victim-stream selection loop of prune_old_packets (demux.c:1287-1305) over
the (index, queue, stream) triples of the LRU-oldest range.  Returns the index
and head kf_seek_pts of the stream to prune, if any. -/
def pickVictimGo (cache : Bool) : List (ℕ × Queue × Stream) → Option (ℕ × ℚ) → Option (ℕ × ℚ)
  | [], acc => acc
  | (n, q, ds) :: rest, acc =>
    match q.packets with
    | [] => pickVictimGo cache rest acc
    | dp :: _ =>
      if ds.reader_head = some dp.pid then pickVictimGo cache rest acc
      else
        let ts := dp.kf_seek_pts
        if ¬cache ∨ ts = MP_NOPTS_VALUE ∨ ¬dp.keyframe then some (n, ts)
        else
          match acc with
          | none => pickVictimGo cache rest (some (n, ts))
          | some a => if ts < a.2 then pickVictimGo cache rest (some (n, ts))
                      else pickVictimGo cache rest acc

/-- Scan for the new seek_start / next_prune_target (demux.c:1320-1333): walk
prev over the queue looking for the next keyframe with a valid kf_seek_pts;
the default target is the tail (prune all if none found). -/
def scanPruneGo : Packet → List Packet → ℚ × ℕ
  | prev, [] => (MP_NOPTS_VALUE, prev.pid)
  | prev, dp :: rest =>
    if dp.keyframe ∧ dp.kf_seek_pts ≠ MP_NOPTS_VALUE then (dp.kf_seek_pts, prev.pid)
    else scanPruneGo dp rest

/-- Lazy computation of queue->next_prune_target and the pruned seek_start
(demux.c:1318-1336, the in-if part before update_seek_ranges). -/
def computeNpt (q : Queue) : Queue :=
  match q.packets with
  | [] => q
  | p0 :: rest =>
    let r := scanPruneGo p0 rest
    { q with seek_start := r.1, next_prune_target := some r.2 }

/-- Byte budget of the backward cache:
seekable_cache ? max_bytes_bw : 0 (demux.c:1280). -/
def pruneMax (s : DemuxState) : ℕ := if s.seekable_cache then s.max_bytes_bw else 0

/-- The victim queue of one prune iteration after the lazy next_prune_target
computation (demux.c:1316-1336): queue of stream V in the oldest range r0,
scanned when the cache is seekable and no prune target is known yet. -/
def pruneVictimQ1 (s : DemuxState) (r0 : Range) (V : ℕ) : Queue :=
  let q := (r0.queues[V]?).getD clear_queue
  if s.seekable_cache ∧ q.next_prune_target = none then computeNpt q else q

/-- The removal loop of one prune iteration (demux.c:1338-1343) on the victim
queue, guarded by stream V's reader_head. -/
def pruneRes (s : DemuxState) (r0 : Range) (V : ℕ) : PruneRes :=
  let q1 := pruneVictimQ1 s r0 V
  pruneLoopGo (((s.streams[V]?).getD defaultStream).reader_head)
    q1.next_prune_target q1.keyframe_latest q1.packets

/-- The victim queue after the removal loop ran. -/
def pruneQ2 (s : DemuxState) (r0 : Range) (V : ℕ) : Queue :=
  { pruneVictimQ1 s r0 V with
    packets := (pruneRes s r0 V).remaining
    next_prune_target := (pruneRes s r0 V).npt
    keyframe_latest := (pruneRes s r0 V).kl }

/-- The oldest range after one prune iteration (queue replaced; the aggregate
seek interval refreshed when the lazy scan ran). -/
def pruneR0c (s : DemuxState) (r0 : Range) (V : ℕ) : Range :=
  let q1 := pruneVictimQ1 s r0 V
  let q2 := pruneQ2 s r0 V
  let r0a := { r0 with queues := r0.queues.set V q1 }
  let sels := s.streams.map (fun d => d.selected)
  let doScan := s.seekable_cache ∧ ((r0.queues[V]?).getD clear_queue).next_prune_target = none
  let r0b := if doScan then updateRangeSeek sels r0a else r0a
  { r0b with queues := r0b.queues.set V q2 }

/-- The state after one prune iteration, before the empty-range sweep. -/
def pruneS1 (s : DemuxState) (r0 : Range) (rest : List Range) (V : ℕ) : DemuxState :=
  { s with ranges := pruneR0c s r0 V :: rest
           total_bytes := subBytes s.total_bytes (pruneRes s r0 V).removed }

/-- One iteration of the while loop of prune_old_packets (demux.c:1281-1347).
Returns none when no victim stream exists (the C assert) — the loop condition
itself is checked by the caller.  The removed packets are returned for the
removal-safety statements. -/
def pruneIter (s : DemuxState) : Option (DemuxState × List Packet) :=
  match s.ranges with
  | [] => none
  | r0 :: rest =>
    match pickVictimGo s.seekable_cache ((r0.queues.zip s.streams).enum.map
        (fun p => (p.1, p.2.1, p.2.2))) none with
    | none => none
    | some v =>
      let s1 := pruneS1 s r0 rest v.1
      if rest ≠ [] ∧ (pruneR0c s r0 v.1).seek_start = MP_NOPTS_VALUE then
        let fr := free_empty_cached_ranges s1
        some (fr.1, (pruneRes s r0 v.1).removed ++ fr.2)
      else some (s1, (pruneRes s r0 v.1).removed)

/-- Function prune_old_packets() (demux.c:1273-1348), with explicit fuel for
the while loop (each iteration removes at least one packet, so any fuel at
least the total packet count computes the full run).  The second component
collects every packet freed while pruning. -/
def prune_old_packets : ℕ → DemuxState → DemuxState × List Packet
  | 0, s => (s, [])
  | fuel+1, s =>
    if szSub s.total_bytes s.fw_bytes > pruneMax s then
      match pruneIter s with
      | none => (s, [])
      | some sr =>
        let r := prune_old_packets fuel sr.1
        (r.1, sr.2 ++ r.2)
    else (s, [])

/-- Loop of find_seek_target() (demux.c:2156-2184), carried accumulator is
(target, target_diff). -/
def fstGo (pts : ℚ) (forward : Bool) : List Packet → Option Packet → ℚ → Option Packet
  | [], target, _ => target
  | dp :: rest, target, target_diff =>
    if ¬dp.keyframe ∨ dp.kf_seek_pts = MP_NOPTS_VALUE then
      fstGo pts forward rest target target_diff
    else
      let diff0 := dp.kf_seek_pts - pts
      let diff := if forward then -diff0 else diff0
      if forward ∧ diff > 0 then fstGo pts forward rest target target_diff
      else
        if target_diff ≠ MP_NOPTS_VALUE then
          if diff ≤ 0 then
            if target_diff ≤ 0 ∧ diff ≤ target_diff then fstGo pts forward rest target target_diff
            else fstGo pts forward rest (some dp) diff
          else
            if diff ≥ target_diff then fstGo pts forward rest target target_diff
            else fstGo pts forward rest (some dp) diff
        else fstGo pts forward rest (some dp) diff

/-- Function find_seek_target() (demux.c:2156-2184). -/
def find_seek_target (q : Queue) (pts : ℚ) (flags : SeekFlags) : Option Packet :=
  fstGo pts flags.forward q.packets none MP_NOPTS_VALUE

/-- Spec-side admissibility for the corrected claim C3: a packet that
find_seek_target may return (keyframe set, known kf_seek_pts, and not before
the target when SEEK_FORWARD is set). -/
def fst_adm (fwd : Bool) (pts : ℚ) (p : Packet) : Prop :=
  p.keyframe = true ∧ p.kf_seek_pts ≠ MP_NOPTS_VALUE ∧ (fwd = true → pts ≤ p.kf_seek_pts)

/-- Spec-side preference order of the corrected claim C3: x is at least as
good a seek-target position as y.  Without SEEK_FORWARD, positions at or
before the target beat positions after it, larger wins among the former and
smaller among the latter; with SEEK_FORWARD, smaller wins. -/
def fst_pref (fwd : Bool) (pts : ℚ) (x y : ℚ) : Prop :=
  if fwd then x ≤ y
  else if x ≤ pts then (y ≤ pts → y ≤ x)
  else pts < y ∧ x ≤ y

/-- The signed distance stored in target_diff by the find_seek_target loop
for a retained packet. -/
def fst_dif (fwd : Bool) (pts : ℚ) (p : Packet) : ℚ :=
  if fwd then -(p.kf_seek_pts - pts) else p.kf_seek_pts - pts

/-- Postcondition of the find_seek_target loop: how the result relates to the
remaining packet list and the accumulator target. -/
def fstConcl (fwd : Bool) (pts : ℚ) (l : List Packet) (target : Option Packet)
    (res : Option Packet) : Prop :=
  (res = none ↔ target = none ∧ ∀ p ∈ l, ¬ fst_adm fwd pts p) ∧
  (∀ u, res = some u →
    ((u ∈ l ∧ fst_adm fwd pts u) ∨ target = some u) ∧
    (∀ p ∈ l, fst_adm fwd pts p → fst_pref fwd pts u.kf_seek_pts p.kf_seek_pts) ∧
    (∀ t, target = some t → fst_pref fwd pts u.kf_seek_pts t.kf_seek_pts))

/-- Function get_refresh_seek_pts() (demux.c:834-881).  The producer-side
conditions demux->desc->seek / demux->seekable / demux->partially_seekable are
the corresponding state flags.  Returns the seek pts (NOPTS when no refresh
seek should happen) and the mutated state (need_refresh consumed, refreshing
set). -/
def get_refresh_seek_pts (s : DemuxState) : ℚ × DemuxState :=
  let items := s.streams.zip (currentRange s).queues
  let acc := items.foldl
    (fun (a : ℚ × Bool × Bool × Bool) p =>
      if ¬p.1.selected then a
      else
        let st := if p.1.stype = StreamType.video ∨ p.1.stype = StreamType.audio then
            MP_PTS_MIN a.1 p.1.base_ts else a.1
        (st, a.2.1 ∨ p.1.need_refresh,
         a.2.2.1 && p.1.need_refresh,
         a.2.2.2 && (p.2.correct_dts || p.2.correct_pos)))
    (s.ref_pts, false, true, true)
  let streams1 := s.streams.map (fun ds =>
    if ds.selected then { ds with need_refresh := false } else ds)
  let s1 := { s with streams := streams1 }
  if ¬acc.2.1 ∨ acc.1 = MP_NOPTS_VALUE ∨ ¬s.has_seek_fn ∨ ¬s.seekable ∨ s.partially_seekable then
    (MP_NOPTS_VALUE, s1)
  else if acc.2.2.1 then (acc.1, s1)
  else if ¬acc.2.2.2 then (MP_NOPTS_VALUE, s1)
  else
    let streams2 := (streams1.zip (currentRange s).queues).map (fun p =>
      if p.2.last_pos ≠ -1 ∨ p.2.last_dts ≠ MP_NOPTS_VALUE then
        { p.1 with refreshing := p.1.refreshing ∨ p.1.selected }
      else p.1)
    ((acc.1 - 1), { s1 with streams := streams2 })

/-- Decision portion of read_packet() (demux.c:1175-1236), i.e. everything the
function does before it would drop the lock for producer I/O.  The Bool is
true when the function goes on to read from the producer, false when it
returns early without any producer interaction. -/
def read_packet (s : DemuxState) : DemuxState × Bool :=
  let s0 := { s with eof := false, idle := true }
  if ¬s0.reading then (s0, false)
  else
    let items := s0.streams.zip (currentRange s0).queues
    let read_more := items.any (fun p => (p.1.eager && p.1.reader_head.isNone) || p.1.refreshing)
    let prefetch_more := items.any (fun p =>
      p.1.eager && decide (p.2.last_ts ≠ MP_NOPTS_VALUE) && decide (s0.min_secs > 0) &&
      decide (p.1.base_ts ≠ MP_NOPTS_VALUE) && decide (p.2.last_ts ≥ p.1.base_ts) &&
      decide (p.2.last_ts - p.1.base_ts < s0.min_secs))
    if s0.fw_bytes ≥ s0.max_bytes then
      if ¬read_more then (s0, false)
      else
        let streams2 := s0.streams.map (fun ds =>
          if ds.reader_head = none then { ds with eof := true } else ds)
        ({ s0 with warned_queue_overflow := true, streams := streams2 }, false)
    else
      let r := get_refresh_seek_pts s0
      let refresh_seek := r.1 ≠ MP_NOPTS_VALUE
      if ¬read_more ∧ ¬refresh_seek ∧ ¬prefetch_more then (r.2, false)
      else ({ r.2 with idle := false, initial_state := false }, true)

/-- Candidate-search loop of attempt_range_joining (demux.c:893-904): among
the non-current ranges whose seek_start lies at or after the current range's
seek_start, pick the one with the smallest positive overlap distance
current.seek_end - range.seek_start (the accumulator none plays INFINITY). -/
def findNextGo (curStart curEnd : ℚ) : List (ℕ × Range) → Option (ℕ × ℚ) → Option ℕ
  | [], acc => acc.map (fun a => a.1)
  | (n, r) :: rest, acc =>
    if curStart ≤ r.seek_start then
      let dist := curEnd - r.seek_start
      if dist > 0 then
        match acc with
        | none => findNextGo curStart curEnd rest (some (n, dist))
        | some a =>
          if dist < a.2 then findNextGo curStart curEnd rest (some (n, dist))
          else findNextGo curStart curEnd rest acc
      else findNextGo curStart curEnd rest acc
    else findNextGo curStart curEnd rest acc

/-- Result of the per-stream overlap walk of attempt_range_joining. -/
structure JoinWalkRes where
  remaining : List Packet
  npt : Option ℕ
  kl : Option ℕ
  removed : List Packet
  found : Bool
  failed : Bool
deriving DecidableEq, Repr

/-- Overlap walk of attempt_range_joining (demux.c:932-965): drop the head of
the next range's queue while it lies strictly before the current range's tail
packet e; fail on reaching keyframe_latest or on a mismatching overlap packet;
succeed when the first non-past packet matches e exactly (that packet is also
removed). -/
def joinWalkGo (gdts gpos : Bool) (e : Packet) : List Packet → Option ℕ → Option ℕ → JoinWalkRes
  | [], npt, kl => ⟨[], npt, kl, [], false, false⟩
  | dp :: rest, npt, kl =>
    if kl = some dp.pid then ⟨dp :: rest, npt, kl, [], false, true⟩
    else if (gdts ∧ dp.dts ≥ e.dts) ∨ (gpos ∧ dp.pos ≥ e.pos) then
      if dp.dts ≠ e.dts ∨ dp.pos ≠ e.pos ∨ dp.pts ≠ e.pts ∨ dp.len ≠ e.len then
        ⟨dp :: rest, npt, kl, [], false, true⟩
      else
        let npt1 := if npt = some dp.pid then none else npt
        let kl1 := if kl = some dp.pid then none else kl
        ⟨rest, npt1, kl1, [dp], true, false⟩
    else
      let npt1 := if npt = some dp.pid then none else npt
      let kl1 := if kl = some dp.pid then none else kl
      let r := joinWalkGo gdts gpos e rest npt1 kl1
      ⟨r.remaining, r.npt, r.kl, dp :: r.removed, r.found, r.failed⟩

/-- Result of the join check for one stream. -/
structure JoinChkRes where
  q2 : Queue
  removed : List Packet
  found : Bool
  failed : Bool
deriving DecidableEq, Repr

/-- Per-stream body of the first loop of attempt_range_joining
(demux.c:919-972): require a monotonic dts or pos history, then search the
join point in the next range's queue q2 against the current queue q1's tail;
eager streams must find an overlap packet. -/
def joinCheckStream (ds : Stream) (q1 q2 : Queue) : JoinChkRes :=
  if ¬ds.global_correct_pos ∧ ¬ds.global_correct_dts then ⟨q2, [], false, true⟩
  else
    match q1.packets.getLast? with
    | none => ⟨q2, [], true, false⟩
    | some e =>
      let w := joinWalkGo ds.global_correct_dts ds.global_correct_pos e
        q2.packets q2.next_prune_target q2.keyframe_latest
      let q2a := { q2 with packets := w.remaining
                           next_prune_target := w.npt
                           keyframe_latest := w.kl }
      if w.failed then ⟨q2a, w.removed, false, true⟩
      else if ds.eager ∧ ¬w.found then ⟨q2a, w.removed, false, true⟩
      else ⟨q2a, w.removed, w.found, false⟩

/-- First loop of attempt_range_joining over all streams, with the goto-failed
early exit.  Returns the next range's (possibly partially drained) queues, all
packets removed from them, and whether the join failed. -/
def joinCheckGo : List (Stream × Queue × Queue) → List Queue → List Packet →
    List Queue × List Packet × Bool
  | [], acc, rem => (acc, rem, false)
  | (ds, q1, q2) :: rest, acc, rem =>
    let r := joinCheckStream ds q1 q2
    if r.failed then (acc ++ [r.q2] ++ rest.map (fun t => t.2.2), rem ++ r.removed, true)
    else joinCheckGo rest (acc ++ [r.q2]) (rem ++ r.removed)

/-- Packets from reader_head to the tail (the loop of recompute_buffers). -/
def fwPackets (rh : Option ℕ) (ps : List Packet) : List Packet :=
  match rh with
  | none => []
  | some i => ps.dropWhile (fun p => !decide (p.pid = i))

/-- Function recompute_buffers() (demux.c:364-373) for a stream against the
packet list of its queue. -/
def recompute_buffers (d : Stream) (packets : List Packet) : Stream :=
  let fw := fwPackets d.reader_head packets
  { d with fw_packs := fw.length
           fw_bytes := fw.foldl (fun a p => szAdd a (demux_packet_estimate_total_size p)) 0 }

/-- Per-stream body of the second (mutating) loop of attempt_range_joining
(demux.c:980-1009): splice the current queue q1 in front of the next range's
queue q2, carry over next_prune_target / seek_start / correct flags, restore
the forward buffer accounting and mark the stream refreshing. -/
def joinMerge (t : Stream × Queue × Queue) : Queue × Stream :=
  let ds := t.1
  let q1 := t.2.1
  let q2 := t.2.2
  let q2a := if q1.packets ≠ [] then { q2 with packets := q1.packets ++ q2.packets } else q2
  let q2b := { q2a with next_prune_target := q1.next_prune_target
                        seek_start := q1.seek_start
                        correct_dts := q2a.correct_dts && q1.correct_dts
                        correct_pos := q2a.correct_pos && q1.correct_pos }
  let ds1 := recompute_buffers ds q2b.packets
  (q2b, { ds1 with refreshing := true })

/-- Function attempt_range_joining() (demux.c:885-1029).  The Bool result is
true exactly on the "ranges joined!" path.  On failure the partially drained
candidate range is cleared and dropped by free_empty_cached_ranges; on success
the candidate becomes the current range, the old current range is emptied into
it, and a low-level resume seek is queued. -/
def attempt_range_joining (s : DemuxState) : DemuxState × Bool :=
  match s.ranges.getLast? with
  | none => (s, false)
  | some cur =>
    let body := s.ranges.dropLast
    match findNextGo cur.seek_start cur.seek_end body.enum none with
    | none => (s, false)
    | some nidx =>
      let next := (body[nidx]?).getD emptyRange
      let chk := joinCheckGo (s.streams.zip (cur.queues.zip next.queues)) [] []
      let next1 := { next with queues := chk.1 }
      let total1 := subBytes s.total_bytes chk.2.1
      let sels := s.streams.map (fun d => d.selected)
      if chk.2.2 then
        let s1 := { s with ranges := (body.set nidx (clearRange sels next1)) ++ [cur]
                           total_bytes := subBytes total1 (rangePackets next1) }
        ((free_empty_cached_ranges s1).1, false)
      else
        let merged := (s.streams.zip (cur.queues.zip chk.1)).map joinMerge
        let newStreams := merged.map (fun m => m.2)
        let next2 := { next1 with queues := merged.map (fun m => m.1)
                                  seek_start := cur.seek_start }
        let curEmpty := { cur with queues := cur.queues.map (fun q =>
          { q with packets := [], next_prune_target := none, keyframe_latest := none }) }
        let s1 := { s with streams := newStreams
                           ranges := (body.eraseIdx nidx) ++ [clearRange sels curEmpty, next2]
                           total_bytes := total1
                           fw_bytes := newStreams.foldl (fun a d => szAdd a d.fw_bytes) 0
                           seeking := true
                           seek_flags := SEEK_HR
                           seek_pts := next2.seek_end - 1 }
        ((free_empty_cached_ranges s1).1, true)

/-- Update of a packet reached through a stored pointer (pid): the C code
mutates the pointed-at packet in place. -/
def updatePacketById (ps : List Packet) (i : ℕ) (f : Packet → Packet) : List Packet :=
  ps.map (fun p => if p.pid = i then f p else p)

/-- Replacement of stream n's record. -/
def setStream (s : DemuxState) (n : ℕ) (d : Stream) : DemuxState :=
  { s with streams := s.streams.set n d }

/-- Replacement of stream n's queue inside the current range (ds->queue always
aliases current_range->streams[n]). -/
def setCurrentQueue (s : DemuxState) (n : ℕ) (q : Queue) : DemuxState :=
  match s.ranges.getLast? with
  | none => s
  | some cur =>
    { s with ranges := s.ranges.dropLast ++ [{ cur with queues := cur.queues.set n q }] }

/-- Call update_seek_ranges(queue->range) for the current range. -/
def setCurrentRangeSeek (s : DemuxState) : DemuxState :=
  match s.ranges.getLast? with
  | none => s
  | some cur =>
    { s with ranges := s.ranges.dropLast ++
        [updateRangeSeek (s.streams.map (fun d => d.selected)) cur] }

/-- Function adjust_seek_range_on_packet() (demux.c:1036-1073) for stream n of
the current range; dp = none is the EOF call that closes the open keyframe
block.  When dp is passed it must be the packet value just appended (the
queue's tail). -/
def adjust_seek_range_on_packet (s : DemuxState) (n : ℕ) (dp : Option Packet) : DemuxState :=
  if ¬s.seekable_cache then s
  else
    let q := currentQueue s n
    let isBoundary := match dp with | none => true | some p => p.keyframe
    let blk :=
      if isBoundary then
        match q.keyframe_latest with
        | some klid =>
          let setKf := fun (p : Packet) => { p with kf_seek_pts := q.keyframe_pts }
          let q1 := { q with packets := updatePacketById q.packets klid setKf }
          let old_end := (currentRange s).seek_end
          let q2 := if q1.seek_start = MP_NOPTS_VALUE then
              { q1 with seek_start := q.keyframe_pts } else q1
          let q3 := if q.keyframe_end_pts ≠ MP_NOPTS_VALUE then
              { q2 with seek_end := q.keyframe_end_pts } else q2
          let q4 := { q3 with keyframe_latest := dp.map (fun p => p.pid)
                              keyframe_pts := MP_NOPTS_VALUE
                              keyframe_end_pts := MP_NOPTS_VALUE }
          let sA := setCurrentRangeSeek (setCurrentQueue s n q4)
          (sA, decide ((currentRange sA).seek_end > old_end))
        | none =>
          let q4 := { q with keyframe_latest := dp.map (fun p => p.pid)
                             keyframe_pts := MP_NOPTS_VALUE
                             keyframe_end_pts := MP_NOPTS_VALUE }
          (setCurrentQueue s n q4, false)
      else (s, false)
    let s1 := blk.1
    let s2 :=
      match dp with
      | none => s1
      | some p =>
        let qb := currentQueue s1 n
        let ts0 := if p.pts = MP_NOPTS_VALUE then p.dts else p.pts
        let ts := if p.segmented ∧ (ts0 < p.startTs ∨ ts0 > p.endTs) then MP_NOPTS_VALUE else ts0
        let clrKf := fun (x : Packet) => { x with kf_seek_pts := MP_NOPTS_VALUE }
        let qn := { qb with packets := updatePacketById qb.packets p.pid clrKf
                            keyframe_pts := MP_PTS_MIN qb.keyframe_pts ts
                            keyframe_end_pts := MP_PTS_MAX qb.keyframe_end_pts ts }
        setCurrentQueue s1 n qn
    if blk.2 then (attempt_range_joining s2).1 else s2

/-- Refresh-mode update of demux_add_packet (demux.c:1087-1100): while the
stream is refreshing, decide from the monotonic dts or pos history whether the
old position has been reached. -/
def apRefreshStream (ds : Stream) (q : Queue) (dp : Packet) : Stream :=
  if ds.refreshing then
    if q.correct_dts then { ds with refreshing := decide (dp.dts < q.last_dts) }
    else if q.correct_pos then { ds with refreshing := decide (dp.pos < q.last_pos) }
    else { ds with refreshing := false }
  else ds

/-- Queue flag update of demux_add_packet (demux.c:1108-1111). -/
def apQueueFlags (q : Queue) (dp : Packet) : Queue :=
  { q with correct_pos := q.correct_pos && decide (dp.pos ≥ 0 ∧ dp.pos > q.last_pos)
           correct_dts := q.correct_dts && decide (dp.dts ≠ MP_NOPTS_VALUE ∧ dp.dts > q.last_dts)
           last_pos := dp.pos
           last_dts := dp.dts }

/-- Global correctness flag update of demux_add_packet (demux.c:1112-1113). -/
def apGlobalFlags (ds : Stream) (q1 : Queue) : Stream :=
  { ds with global_correct_pos := ds.global_correct_pos && q1.correct_pos
            global_correct_dts := ds.global_correct_dts && q1.correct_dts }

/-- Reader-head pickup of demux_add_packet (demux.c:1120-1123). -/
def apTakeRH (ds : Stream) (dp : Packet) : Stream :=
  if ds.reader_head = none ∧ (¬ds.skip_to_keyframe ∨ dp.keyframe) then
    { ds with reader_head := some dp.pid, skip_to_keyframe := false }
  else ds

/-- Forward-buffer accounting of demux_add_packet (demux.c:1127-1131),
stream-local part. -/
def apFwAccount (ds : Stream) (bytes : ℕ) : Stream :=
  if ¬ds.reader_head = none then
    { ds with fw_packs := szAdd ds.fw_packs 1, fw_bytes := szAdd ds.fw_bytes bytes }
  else ds

/-- EOF reset of demux_add_packet (demux.c:1142-1146), stream-local part. -/
def apEofReset (ds : Stream) : Stream :=
  if ¬ds.ignore_eof then { ds with eof := false } else ds

/-- PTS substitution for non-video streams (demux.c:1148-1151). -/
def apFixPts (sty : StreamType) (dp : Packet) : Packet :=
  if sty ≠ StreamType.video ∧ dp.pts = MP_NOPTS_VALUE then { dp with pts := dp.dts } else dp

/-- Timestamp of the appended packet for the last_ts update (demux.c:1153-1155). -/
def apPacketTs (dp : Packet) : ℚ :=
  let ts0 := if dp.dts = MP_NOPTS_VALUE then dp.pts else dp.dts
  if dp.segmented then MP_PTS_MIN ts0 dp.endTs else ts0

/-- Queue last_ts update (demux.c:1156-1157). -/
def apLastTs (q : Queue) (ts : ℚ) : Queue :=
  if ts ≠ MP_NOPTS_VALUE ∧ (ts > q.last_ts ∨ ts + 10 < q.last_ts) then
    { q with last_ts := ts }
  else q

/-- Stream base_ts initialisation (demux.c:1158-1159). -/
def apBaseTs (ds : Stream) (q : Queue) : Stream :=
  if ds.base_ts = MP_NOPTS_VALUE then { ds with base_ts := q.last_ts } else ds

/-- Locked body of demux_add_packet() (demux.c:1085-1171) for a registered,
valid stream index n and a packet of nonzero length.  The wakeup callback and
condition signalling have no state effect and are not modelled. -/
def addPacketLocked (s : DemuxState) (n : ℕ) (dp : Packet) : DemuxState :=
  let ds := (s.streams[n]?).getD defaultStream
  let q := currentQueue s n
  let drop := ds.refreshing
  let dsR := apRefreshStream ds q dp
  let s1 := setStream s n dsR
  if ¬ds.selected ∨ ds.need_refresh ∨ s.seeking ∨ drop then s1
  else
    let q1 := apQueueFlags q dp
    let dp1 := { dp with stream := (n : ℤ) }
    let ds3 := apTakeRH (apGlobalFlags dsR q1) dp1
    let bytes := demux_packet_estimate_total_size dp1
    let hasRH := ¬ds3.reader_head = none
    let ds5 := apEofReset (apFwAccount ds3 bytes)
    let dp2 := apFixPts ds5.stype dp1
    let q2 := { q1 with packets := q1.packets ++ [dp2] }
    let q3 := apLastTs q2 (apPacketTs dp2)
    let ds6 := apBaseTs ds5 q3
    let s2 := { s1 with total_bytes := szAdd s1.total_bytes bytes
                        fw_bytes := if hasRH then szAdd s1.fw_bytes bytes else s1.fw_bytes
                        eof := if ¬ds3.ignore_eof then false else s1.eof
                        last_eof := if ¬ds3.ignore_eof then false else s1.last_eof }
    let s3 := setCurrentQueue (setStream s2 n ds6) n q3
    adjust_seek_range_on_packet s3 n (some dp2)

/-- Function demux_add_packet() (demux.c:1075-1172).  The stream argument
models the sh_stream pointer: none is a NULL stream, some none a stream whose
ds field is NULL (never registered), some (some n) the registered stream with
index n. -/
def demux_add_packet (s : DemuxState) (stream : Option (Option ℕ))
    (dpOpt : Option Packet) : DemuxState :=
  match stream, dpOpt with
  | some (some n), some dp =>
    if dp.len = 0 then s
    else if n < s.streams.length then addPacketLocked s n dp else s
  | _, _ => s

/-- Loop while (queue->next_prune_target) remove_packet(queue, NULL, head) of
switch_current_range (demux.c:2126-2127): returns (removed, remaining).  The
loop ends exactly when the prune-target packet itself has been removed. -/
def cutToNptGo (t : ℕ) : List Packet → List Packet × List Packet
  | [] => ([], [])
  | dp :: rest =>
    if dp.pid = t then ([dp], rest)
    else
      let r := cutToNptGo t rest
      (dp :: r.1, r.2)

/-- Queue-level part of the old-range cleanup of switch_current_range. -/
def cutQueueNpt (q : Queue) : Queue × List Packet :=
  match q.next_prune_target with
  | none => (q, [])
  | some t =>
    let r := cutToNptGo t q.packets
    ({ q with packets := r.2
              next_prune_target := none
              keyframe_latest := if r.1.any (fun p => q.keyframe_latest = some p.pid) then none
                                 else q.keyframe_latest }, r.1)

/-- Per-stream reset of switch_current_range (demux.c:2144-2150). -/
def switchStreams (streams : List Stream) : List Stream :=
  streams.map (fun ds => { ds with refreshing := false, need_refresh := false, eof := false })

/-- Old-current-range cleanup of switch_current_range (demux.c:2121-2141):
drop the packets up to the prune targets and, when some selected stream has
neither a correct dts nor a correct pos history, discard the old range's data
entirely.  Returns the transformed old range and the new total_bytes. -/
def switchOldRange (s : DemuxState) (old : Range) : Range × ℕ :=
  let cutRes := old.queues.map cutQueueNpt
  let old1 := { old with queues := cutRes.map (fun c => c.1) }
  let freed := (cutRes.map (fun c => c.2)).flatten
  let total1 := subBytes s.total_bytes freed
  let bad := s.streams.any (fun ds =>
    ds.selected && !ds.global_correct_dts && !ds.global_correct_pos)
  if bad then
    (clearRange (s.streams.map (fun d => d.selected)) old1, subBytes total1 (rangePackets old1))
  else (old1, total1)

/-- Function switch_current_range() (demux.c:2113-2154) making s.ranges[i]
(with i < length - 1) the current range. -/
def switch_current_range (s : DemuxState) (i : ℕ) : DemuxState :=
  match s.ranges.getLast? with
  | none => s
  | some old =>
    let r := (s.ranges[i]?).getD emptyRange
    let t := switchOldRange s old
    let s1 := { s with ranges := (s.ranges.dropLast.eraseIdx i) ++ [t.1, r]
                       total_bytes := t.2
                       streams := switchStreams s.streams }
    (free_empty_cached_ranges s1).1

/-- Range-scan loop of try_seek_cache (demux.c:2198-2210). -/
def findCacheRangeGo (pts : ℚ) : List (ℕ × Range) → Option ℕ
  | [] => none
  | (n, r) :: rest =>
    if r.seek_start ≠ MP_NOPTS_VALUE ∧ pts ≥ r.seek_start ∧ pts ≤ r.seek_end then some n
    else findCacheRangeGo pts rest

/-- Video target adjustment of try_seek_cache (demux.c:2222-2242): for the
first selected video stream, adopt the found target's kf_seek_pts as the seek
pts and clear SEEK_FORWARD. -/
def vidAdjustGo (pts : ℚ) (fl : SeekFlags) : List (Stream × Queue) → ℚ × SeekFlags
  | [] => (pts, fl)
  | (ds, q) :: rest =>
    if ds.selected ∧ ds.stype = StreamType.video then
      match find_seek_target q pts fl with
      | some t =>
        if t.kf_seek_pts ≠ MP_NOPTS_VALUE then (t.kf_seek_pts, { fl with forward := false })
        else (pts, fl)
      | none => (pts, fl)
    else vidAdjustGo pts fl rest

/-- Per-stream reader setup of try_seek_cache (demux.c:2244-2265). -/
def seekStreamSetup (pts : ℚ) (fl : SeekFlags) (p : Stream × Queue) : Stream :=
  match find_seek_target p.2 pts fl with
  | some t =>
    recompute_buffers { p.1 with reader_head := some t.pid
                                 skip_to_keyframe := false
                                 base_ts := PTS_OR_DEF t.pts t.dts } p.2.packets
  | none =>
    recompute_buffers { p.1 with reader_head := none, skip_to_keyframe := true } p.2.packets

/-- Function try_seek_cache() (demux.c:2187-2290); none models the false
return (no cached range contains pts, or in-cache seeking is off). -/
def try_seek_cache (s : DemuxState) (pts : ℚ) (fl : SeekFlags) : Option DemuxState :=
  if fl.factor ∨ ¬s.seekable_cache then none
  else
    match findCacheRangeGo pts s.ranges.enum with
    | none => none
    | some i =>
      let r := (s.ranges[i]?).getD emptyRange
      let pf := if ¬fl.hr then vidAdjustGo pts fl (s.streams.zip r.queues) else (pts, fl)
      let streams1 := (s.streams.zip r.queues).map (seekStreamSetup pf.1 pf.2)
      let fwSum := streams1.foldl (fun a d => szAdd a d.fw_bytes) s.fw_bytes
      let s1 := { s with streams := streams1, fw_bytes := fwSum }
      if i = s.ranges.length - 1 then some s1
      else
        let s2 := switch_current_range s1 i
        some { s2 with streams := s2.streams.map (fun ds => { ds with refreshing := true })
                       seeking := true
                       seek_flags := SEEK_HR
                       seek_pts := r.seek_end - 1 }

/-- Function switch_to_fresh_cache_range() (demux.c:2294-2310). -/
def switch_to_fresh_cache_range (s : DemuxState) : DemuxState :=
  if ¬s.seekable_cache then
    match s.ranges.getLast? with
    | none => s
    | some cur =>
      let sels := s.streams.map (fun d => d.selected)
      { s with ranges := s.ranges.dropLast ++ [clearRange sels cur]
               total_bytes := subBytes s.total_bytes (rangePackets cur) }
  else
    match s.ranges.getLast? with
    | none => s
    | some old =>
      let fresh : Range := ⟨s.streams.map (fun _ => clear_queue), MP_NOPTS_VALUE, MP_NOPTS_VALUE⟩
      let t := switchOldRange s old
      let s1 := { s with ranges := s.ranges.dropLast ++ [t.1, fresh]
                         total_bytes := t.2
                         streams := switchStreams s.streams }
      (free_empty_cached_ranges s1).1

/-- Timestamp demux_add_packet folds into last_ts for an appended packet
(demux.c:1148-1155): PTS substitution for non-video, then dts-else-pts capped
by the segment end. -/
def apEffectiveTs (sty : StreamType) (dp : Packet) : ℚ := apPacketTs (apFixPts sty dp)

/-- Bool test "this stream still needs packets" of read_packet
(demux.c:1189): an eager stream without a queued packet, or a refreshing
stream. -/
def streamNeedsMore (d : Stream) : Bool := (d.eager && d.reader_head.isNone) || d.refreshing

/-- Packet ids of a queue (pointer identities of its packets). -/
def queueIds (q : Queue) : List ℕ := q.packets.map Packet.pid

/-- Packet ids of a range. -/
def rangeIds (r : Range) : List ℕ := (r.queues.map queueIds).flatten

/-- Packet ids buffered anywhere in the state. -/
def allIds (s : DemuxState) : List ℕ := (s.ranges.map rangeIds).flatten

/-- Bool check that stream n's reader_head, when set, points at a packet of
that stream's queue in the current range (invariant 3 of the spec). -/
def rhOkB (s : DemuxState) (n : ℕ) : Bool :=
  match ((s.streams[n]?).getD defaultStream).reader_head with
  | none => true
  | some pid => decide (pid ∈ queueIds (currentQueue s n))

/-- Well-formedness used by the pruning-safety statements: pointer identity
is faithful (no pid occurs twice among the buffered packets), every
reader_head points into its stream's current queue, the range list is
nonempty, and every range has one queue per stream. -/
def StateWF (s : DemuxState) : Prop :=
  (allIds s).Nodup ∧
  (∀ n ∈ List.range s.streams.length, rhOkB s n = true) ∧
  s.ranges ≠ [] ∧
  (∀ r ∈ s.ranges, r.queues.length = s.streams.length)

/-- Function execute_seek() (demux.c:1369-1386): consume the queued seek; the
low-level demuxer seek call is producer I/O with no effect on the modelled
cache state. -/
def execute_seek (s : DemuxState) : DemuxState :=
  { s with seeking := false, initial_state := false }

/-- Function demux_seek() (demux.c:2312-2355).  The first component is the C
return value. -/
def demux_seek (s : DemuxState) (seek_pts : ℚ) (flags : SeekFlags) : ℤ × DemuxState :=
  if ¬s.seekable then (0, s)
  else if seek_pts = MP_NOPTS_VALUE then (0, s)
  else
    let pts := if ¬flags.factor then MP_ADD_PTS seek_pts (-s.ts_offset) else seek_pts
    let s1 := clear_reader_state s
    let s2 := { s1 with eof := false, last_eof := false, idle := true, reading := false }
    let s3 :=
      match try_seek_cache s2 pts flags with
      | some sc => sc
      | none =>
        let sf := switch_to_fresh_cache_range s2
        { sf with seeking := true, seek_flags := flags, seek_pts := pts }
    let s4 := if ¬s3.threading ∧ s3.seeking then execute_seek s3 else s3
    (1, s4)

/-- Sample packet builder for the closed witness and counterexample
statements (non-segmented, default segment bounds). -/
def wPacket (i : ℕ) (pts dts : ℚ) (pos : ℤ) (len : ℕ) (kf : Bool) (kfp : ℚ) : Packet :=
  ⟨i, pts, dts, pos, len, kf, false, kfp, MP_NOPTS_VALUE, MP_NOPTS_VALUE, -1⟩

/-- Sample selected eager stream. -/
def wStream : Stream := { defaultStream with selected := true, eager := true }

/-- Sample one-stream, one-range demuxer state. -/
def wBase : DemuxState :=
  { streams := [wStream]
    ranges := [⟨[clear_queue], MP_NOPTS_VALUE, MP_NOPTS_VALUE⟩]
    total_bytes := 0
    fw_bytes := 0
    max_bytes := 1000
    max_bytes_bw := 0
    min_secs := 1
    seekable_cache := false
    warned_queue_overflow := false
    filepos := -1
    seeking := false
    seek_flags := ⟨false, false, false⟩
    seek_pts := MP_NOPTS_VALUE
    eof := false
    last_eof := false
    idle := false
    reading := false
    initial_state := true
    ts_offset := 0
    ref_pts := MP_NOPTS_VALUE
    threading := true
    seekable := true
    partially_seekable := false
    has_seek_fn := true }

/-- Sample queue that has already seen a packet with dts 5 at position 50. -/
def wRefQueue : Queue := { clear_queue with last_dts := 5, last_pos := 50 }

/-- Sample state whose only stream is refreshing after a refresh seek. -/
def wRefState : DemuxState :=
  { wBase with streams := [{ wStream with refreshing := true }]
               ranges := [⟨[wRefQueue], MP_NOPTS_VALUE, MP_NOPTS_VALUE⟩] }

/-- Sample state that is over the forward byte budget while its only stream
still holds a queued packet (reader_head set, nothing needs reading). -/
def wOvState : DemuxState :=
  { wBase with reading := true
               fw_bytes := 2000
               streams := [{ wStream with reader_head := some 1 }]
               ranges := [⟨[{ clear_queue with
                  packets := [wPacket 1 5 5 10 100 true MP_NOPTS_VALUE] }],
                 MP_NOPTS_VALUE, MP_NOPTS_VALUE⟩] }

/-- Sample state whose recorded totals match its one buffered packet
(len 100, estimated size 164). -/
def wFlState : DemuxState := { wOvState with total_bytes := 164 }

/-- Sample queue whose only keyframe sits strictly after seek position 3. -/
def wC3Queue : Queue := { clear_queue with packets := [wPacket 1 5 5 0 10 true 5] }

/-- Sample stream whose position and dts history are both unusable, making
any range join fail immediately. -/
def wC7Stream : Stream := { wStream with global_correct_dts := false, global_correct_pos := false }

/-- Sample current range covering 10-20. -/
def wC7Cur : Range := ⟨[clear_queue], 10, 20⟩

/-- Sample candidate range starting inside the current one (overlap 5). -/
def wC7Cand : Range := ⟨[clear_queue], 15, 18⟩

/-- Sample two-range state in which a join is attempted and fails. -/
def wC7State : DemuxState :=
  { wBase with streams := [wC7Stream], ranges := [wC7Cand, wC7Cur] }

/- ------------------------------------------------------------------------
   Theorems.
   ------------------------------------------------------------------------ -/

/-- Helper: any over the first components of a zip of equally long lists. -/
theorem any_zip_fst {α β : Type} (f : α → Bool) :
    ∀ (l1 : List α) (l2 : List β), l1.length = l2.length →
      (l1.zip l2).any (fun p => f p.1) = l1.any f := by
  intro l1
  induction l1 with
  | nil => intro l2 _; rfl
  | cons a t ih =>
    intro l2 h
    cases l2 with
    | nil => simp at h
    | cons b t2 =>
      simp only [List.zip_cons_cons, List.any_cons]
      rw [ih t2 (by simpa using h)]

/-- Helper: MP_PTS_MAX away from the NOPTS sentinel is the plain maximum. -/
theorem MP_PTS_MAX_eq_max (x y : ℚ) (hx : x ≠ MP_NOPTS_VALUE) (hy : y ≠ MP_NOPTS_VALUE) :
    MP_PTS_MAX x y = max x y := by
  simp [MP_PTS_MAX, PTS_OR_DEF, hx, hy]

/-- Helper: MP_PTS_MIN away from the NOPTS sentinel is the plain minimum. -/
theorem MP_PTS_MIN_eq_min (x y : ℚ) (hx : x ≠ MP_NOPTS_VALUE) (hy : y ≠ MP_NOPTS_VALUE) :
    MP_PTS_MIN x y = min x y := by
  simp [MP_PTS_MIN, PTS_OR_DEF, hx, hy]

/-- Helper: MP_PTS_MAX with NOPTS on the left returns the other operand. -/
theorem MP_PTS_MAX_nopts_left (x : ℚ) : MP_PTS_MAX MP_NOPTS_VALUE x = x := by
  by_cases hx : x = MP_NOPTS_VALUE <;> simp [MP_PTS_MAX, PTS_OR_DEF, hx]

/-- Helper: MP_PTS_MIN with NOPTS on the left returns the other operand. -/
theorem MP_PTS_MIN_nopts_left (x : ℚ) : MP_PTS_MIN MP_NOPTS_VALUE x = x := by
  by_cases hx : x = MP_NOPTS_VALUE <;> simp [MP_PTS_MIN, PTS_OR_DEF, hx]

/-- Helper: the update_seek_ranges fold collapses to NOPTS as soon as some
selected queue has NOPTS on either end (the break in the C loop). -/
theorem usrFold_break : ∀ (l : List (Bool × ℚ × ℚ)) (st en : ℚ),
    (∃ q ∈ l, q.1 = true ∧ (q.2.1 = MP_NOPTS_VALUE ∨ q.2.2 = MP_NOPTS_VALUE)) →
    usrFold l st en = (MP_NOPTS_VALUE, MP_NOPTS_VALUE) := by
  intro l
  induction l with
  | nil => intro st en h; simp at h
  | cons hd tl ih =>
    intro st en h
    obtain ⟨sel, qs, qe⟩ := hd
    rcases h with ⟨q, hq, hsel, hn⟩
    rcases List.mem_cons.1 hq with rfl | hq2
    · simp only at hsel hn
      simp [usrFold, hsel, hn]
    · by_cases hs : sel = true
      · by_cases hnn : qs = MP_NOPTS_VALUE ∨ qe = MP_NOPTS_VALUE
        · simp [usrFold, hs, hnn]
        · simp only [usrFold, hs, if_true]
          rw [if_neg hnn]
          exact ih _ _ ⟨q, hq2, hsel, hn⟩
      · simp only [usrFold, hs, if_false]
        exact ih _ _ ⟨q, hq2, hsel, hn⟩

/-- Helper: when no selected queue has NOPTS, the update_seek_ranges fold is
the pairwise MP_PTS_MAX / MP_PTS_MIN fold over the selected values. -/
theorem usrFold_no_break : ∀ (l : List (Bool × ℚ × ℚ)) (st en : ℚ),
    (∀ q ∈ l, q.1 = true → q.2.1 ≠ MP_NOPTS_VALUE ∧ q.2.2 ≠ MP_NOPTS_VALUE) →
    usrFold l st en = ((selStarts l).foldl MP_PTS_MAX st, (selEnds l).foldl MP_PTS_MIN en) := by
  intro l
  induction l with
  | nil => intro st en _; simp [usrFold, selStarts, selEnds]
  | cons hd tl ih =>
    intro st en h
    obtain ⟨sel, qs, qe⟩ := hd
    by_cases hs : sel = true
    · have hnn := h (sel, qs, qe) (List.mem_cons_self _ _) hs
      simp only at hnn
      simp only [usrFold, hs, if_true, selStarts, selEnds]
      rw [if_neg (by rw [not_or]; exact hnn)]
      rw [ih _ _ (fun q hq hq1 => h q (List.mem_cons_of_mem _ hq) hq1)]
      simp
    · simp only [usrFold, hs, if_false, selStarts, selEnds]
      exact ih _ _ (fun q hq hq1 => h q (List.mem_cons_of_mem _ hq) hq1)

/-- Helper: a max fold either returns its seed or an element of the list. -/
theorem foldl_max_mem : ∀ (l : List ℚ) (a : ℚ), l.foldl max a = a ∨ (l.foldl max a) ∈ l := by
  intro l
  induction l with
  | nil => intro a; left; rfl
  | cons x xs ih =>
    intro a
    simp only [List.foldl_cons]
    rcases ih (max a x) with h | h
    · rw [h]
      rcases max_choice a x with h2 | h2
      · left; exact h2
      · right; rw [h2]; exact List.mem_cons_self _ _
    · right; exact List.mem_cons_of_mem _ h

/-- Helper: a min fold either returns its seed or an element of the list. -/
theorem foldl_min_mem : ∀ (l : List ℚ) (a : ℚ), l.foldl min a = a ∨ (l.foldl min a) ∈ l := by
  intro l
  induction l with
  | nil => intro a; left; rfl
  | cons x xs ih =>
    intro a
    simp only [List.foldl_cons]
    rcases ih (min a x) with h | h
    · rw [h]
      rcases min_choice a x with h2 | h2
      · left; exact h2
      · right; rw [h2]; exact List.mem_cons_self _ _
    · right; exact List.mem_cons_of_mem _ h

/-- Helper: away from the sentinel, the MP_PTS_MAX fold is the max fold. -/
theorem foldl_ptsmax_eq_max : ∀ (l : List ℚ) (a : ℚ), a ≠ MP_NOPTS_VALUE →
    (∀ x ∈ l, x ≠ MP_NOPTS_VALUE) → l.foldl MP_PTS_MAX a = l.foldl max a := by
  intro l
  induction l with
  | nil => intro a _ _; rfl
  | cons x xs ih =>
    intro a ha h
    have hx := h x (List.mem_cons_self _ _)
    simp only [List.foldl_cons]
    rw [MP_PTS_MAX_eq_max a x ha hx]
    refine ih (max a x) ?_ (fun y hy => h y (List.mem_cons_of_mem _ hy))
    rcases max_choice a x with h2 | h2 <;> rw [h2]
    · exact ha
    · exact hx

/-- Helper: away from the sentinel, the MP_PTS_MIN fold is the min fold. -/
theorem foldl_ptsmin_eq_min : ∀ (l : List ℚ) (a : ℚ), a ≠ MP_NOPTS_VALUE →
    (∀ x ∈ l, x ≠ MP_NOPTS_VALUE) → l.foldl MP_PTS_MIN a = l.foldl min a := by
  intro l
  induction l with
  | nil => intro a _ _; rfl
  | cons x xs ih =>
    intro a ha h
    have hx := h x (List.mem_cons_self _ _)
    simp only [List.foldl_cons]
    rw [MP_PTS_MIN_eq_min a x ha hx]
    refine ih (min a x) ?_ (fun y hy => h y (List.mem_cons_of_mem _ hy))
    rcases min_choice a x with h2 | h2 <;> rw [h2]
    · exact ha
    · exact hx

/-- Helper: the MP_PTS_MAX fold from NOPTS over sentinel-free values is the
plain list maximum. -/
theorem foldl_ptsmax_nopts (l : List ℚ) (h : ∀ x ∈ l, x ≠ MP_NOPTS_VALUE) :
    l.foldl MP_PTS_MAX MP_NOPTS_VALUE = listMax l := by
  cases l with
  | nil => rfl
  | cons x xs =>
    simp only [List.foldl_cons, MP_PTS_MAX_nopts_left, listMax]
    exact foldl_ptsmax_eq_max xs x (h x (List.mem_cons_self _ _))
      (fun y hy => h y (List.mem_cons_of_mem _ hy))

/-- Helper: the MP_PTS_MIN fold from NOPTS over sentinel-free values is the
plain list minimum. -/
theorem foldl_ptsmin_nopts (l : List ℚ) (h : ∀ x ∈ l, x ≠ MP_NOPTS_VALUE) :
    l.foldl MP_PTS_MIN MP_NOPTS_VALUE = listMin l := by
  cases l with
  | nil => rfl
  | cons x xs =>
    simp only [List.foldl_cons, MP_PTS_MIN_nopts_left, listMin]
    exact foldl_ptsmin_eq_min xs x (h x (List.mem_cons_self _ _))
      (fun y hy => h y (List.mem_cons_of_mem _ hy))

/-- Helper: every element of selStarts comes from a selected queue. -/
theorem mem_selStarts : ∀ (l : List (Bool × ℚ × ℚ)) (x : ℚ), x ∈ selStarts l →
    ∃ q ∈ l, q.1 = true ∧ q.2.1 = x := by
  intro l
  induction l with
  | nil => intro x h; simp [selStarts] at h
  | cons hd tl ih =>
    intro x h
    obtain ⟨sel, qs, qe⟩ := hd
    by_cases hs : sel = true
    · rw [selStarts, if_pos hs] at h
      rcases List.mem_cons.1 h with rfl | h2
      · exact ⟨(sel, x, qe), List.mem_cons_self _ _, hs, rfl⟩
      · obtain ⟨q, hq, h1, h2⟩ := ih x h2
        exact ⟨q, List.mem_cons_of_mem _ hq, h1, h2⟩
    · rw [selStarts, if_neg hs] at h
      obtain ⟨q, hq, h1, h2⟩ := ih x h
      exact ⟨q, List.mem_cons_of_mem _ hq, h1, h2⟩

/-- Helper: every element of selEnds comes from a selected queue. -/
theorem mem_selEnds : ∀ (l : List (Bool × ℚ × ℚ)) (x : ℚ), x ∈ selEnds l →
    ∃ q ∈ l, q.1 = true ∧ q.2.2 = x := by
  intro l
  induction l with
  | nil => intro x h; simp [selEnds] at h
  | cons hd tl ih =>
    intro x h
    obtain ⟨sel, qs, qe⟩ := hd
    by_cases hs : sel = true
    · rw [selEnds, if_pos hs] at h
      rcases List.mem_cons.1 h with rfl | h2
      · exact ⟨(sel, qs, x), List.mem_cons_self _ _, hs, rfl⟩
      · obtain ⟨q, hq, h1, h2⟩ := ih x h2
        exact ⟨q, List.mem_cons_of_mem _ hq, h1, h2⟩
    · rw [selEnds, if_neg hs] at h
      obtain ⟨q, hq, h1, h2⟩ := ih x h
      exact ⟨q, List.mem_cons_of_mem _ hq, h1, h2⟩

/-- C1: after update_seek_ranges, the range's seek_start is the maximum of
seek_start and its seek_end the minimum of seek_end over the queues of the
selected streams; if any selected queue has NOPTS on either end, or the
resulting interval is empty or inverted (seek_start >= seek_end), both fields
are NOPTS.  Stated as equality of the code-side function with the spec-side
restatement update_seek_ranges_spec. -/
theorem C1_update_seek_ranges_matches_spec (qs : List (Bool × ℚ × ℚ)) :
    update_seek_ranges qs = update_seek_ranges_spec qs := by
  by_cases h : ∃ q ∈ qs, q.1 = true ∧ (q.2.1 = MP_NOPTS_VALUE ∨ q.2.2 = MP_NOPTS_VALUE)
  · rw [update_seek_ranges_spec, if_pos h]
    unfold update_seek_ranges
    rw [usrFold_break qs _ _ h]
    simp
  · rw [update_seek_ranges_spec, if_neg h]
    push_neg at h
    have h' : ∀ q ∈ qs, q.1 = true → q.2.1 ≠ MP_NOPTS_VALUE ∧ q.2.2 ≠ MP_NOPTS_VALUE := by
      intro q hq hs
      have := h q hq hs
      exact ⟨this.1, this.2⟩
    unfold update_seek_ranges
    rw [usrFold_no_break qs _ _ h']
    have hs1 : ∀ x ∈ selStarts qs, x ≠ MP_NOPTS_VALUE := by
      intro x hx
      obtain ⟨q, hq, hqs, hqe⟩ := mem_selStarts qs x hx
      rw [← hqe]
      exact (h' q hq hqs).1
    have hs2 : ∀ x ∈ selEnds qs, x ≠ MP_NOPTS_VALUE := by
      intro x hx
      obtain ⟨q, hq, hqs, hqe⟩ := mem_selEnds qs x hx
      rw [← hqe]
      exact (h' q hq hqs).2
    rw [foldl_ptsmax_nopts _ hs1, foldl_ptsmin_nopts _ hs2]

/-- C4 (amended): read_packet with fw_bytes >= max_bytes never touches the
producer.  When no stream still needs a packet (no eager stream with an empty
reader_head, no refreshing stream), it returns with only in->eof/in->idle
reset — the warning flag and every stream's eof flag are left unchanged.  The
one-shot overflow warning (guarded by warned_queue_overflow) and the eof
raising happen in the opposite case, when some stream still needs a packet:
there, eof is raised exactly for the streams whose reader_head is empty. -/
theorem C4_overflow_pauses (s : DemuxState)
    (halign : (currentRange s).queues.length = s.streams.length)
    (hread : s.reading = true) (hfw : s.fw_bytes ≥ s.max_bytes) :
    (read_packet s).2 = false ∧
    (s.streams.any streamNeedsMore = false →
      (read_packet s).1 = { s with eof := false, idle := true }) ∧
    (s.streams.any streamNeedsMore = true →
      (read_packet s).1.warned_queue_overflow = true ∧
      (read_packet s).1.streams = s.streams.map (fun d =>
        if d.reader_head = none then { d with eof := true } else d)) := by
  have halign2 : s.streams.length = ((s.ranges.getLast?).getD emptyRange).queues.length := by
    unfold currentRange at halign
    exact halign.symm
  have hz : ((s.streams.zip ((s.ranges.getLast?).getD emptyRange).queues).any
      (fun p => (p.1.eager && p.1.reader_head.isNone) || p.1.refreshing)) =
      s.streams.any streamNeedsMore :=
    any_zip_fst streamNeedsMore s.streams _ halign2
  have key : read_packet s =
      (if s.streams.any streamNeedsMore = true then
        ({ s with
            eof := false
            idle := true
            warned_queue_overflow := true
            streams := s.streams.map (fun d =>
              if d.reader_head = none then { d with eof := true } else d) }, false)
       else ({ s with eof := false, idle := true }, false)) := by
    unfold read_packet currentRange
    dsimp only
    rw [hz]
    simp only [hread, not_true, if_false]
    rw [if_pos hfw]
    by_cases hneed : s.streams.any streamNeedsMore = true
    · rw [if_pos hneed, if_neg (by simp [hneed])]
    · rw [if_neg hneed, if_pos (by simpa using hneed)]
  rw [key]
  by_cases hneed : s.streams.any streamNeedsMore = true
  · simp [hneed]
  · simp [hneed]

/-- Witness for C4's amended statement at the concrete over-budget state whose
only stream still holds a packet. -/
theorem C4_overflow_pauses_witness :
    (read_packet wOvState).2 = false ∧
    (wOvState.streams.any streamNeedsMore = false →
      (read_packet wOvState).1 = { wOvState with eof := false, idle := true }) ∧
    (wOvState.streams.any streamNeedsMore = true →
      (read_packet wOvState).1.warned_queue_overflow = true ∧
      (read_packet wOvState).1.streams = wOvState.streams.map (fun d =>
        if d.reader_head = none then { d with eof := true } else d)) :=
  C4_overflow_pauses wOvState (by decide) (by decide) (by decide)

/-- Counterexample to C4 as stated: wOvState is over the byte budget
(fw_bytes 2000 >= max_bytes 1000), read_packet runs with reading set, no
stream needs a packet — and the selected stream's eof flag stays false
instead of being raised. -/
theorem C4_overflow_claim_counterexample :
    wOvState.fw_bytes ≥ wOvState.max_bytes ∧
    wOvState.streams.any streamNeedsMore = false ∧
    (read_packet wOvState).2 = false ∧
    ((read_packet wOvState).1.streams.map Stream.eof) = [false] ∧
    ((wOvState.streams.map Stream.selected) = [true]) := by
  refine ⟨by decide, by decide, by decide, by decide, by decide⟩

/-- Helper: setStream does not touch the ranges, hence not the queues. -/
theorem currentQueue_setStream (s : DemuxState) (n m : ℕ) (d : Stream) :
    currentQueue (setStream s n d) m = currentQueue s m := rfl

/-- Helper: the current range after setCurrentQueue. -/
theorem currentRange_setCurrentQueue (s : DemuxState) (n : ℕ) (q : Queue)
    (hr : s.ranges ≠ []) :
    currentRange (setCurrentQueue s n q) =
      { currentRange s with queues := (currentRange s).queues.set n q } := by
  unfold setCurrentQueue currentRange
  cases h : s.ranges.getLast? with
  | none => exact absurd (List.getLast?_eq_none_iff.1 h) hr
  | some cur => simp [h, List.getLast?_concat]

/-- Helper: setCurrentQueue keeps the range list nonempty. -/
theorem ranges_ne_nil_setCurrentQueue (s : DemuxState) (n : ℕ) (q : Queue)
    (hr : s.ranges ≠ []) : (setCurrentQueue s n q).ranges ≠ [] := by
  unfold setCurrentQueue
  cases h : s.ranges.getLast? with
  | none => exact absurd (List.getLast?_eq_none_iff.1 h) hr
  | some cur => simp

/-- Helper: setCurrentQueue preserves the number of ranges. -/
theorem ranges_length_setCurrentQueue (s : DemuxState) (n : ℕ) (q : Queue)
    (hr : s.ranges ≠ []) : (setCurrentQueue s n q).ranges.length = s.ranges.length := by
  unfold setCurrentQueue
  cases h : s.ranges.getLast? with
  | none => exact absurd (List.getLast?_eq_none_iff.1 h) hr
  | some cur =>
    simp only [List.length_append, List.length_dropLast, List.length_cons, List.length_nil]
    have : s.ranges.length ≠ 0 := by
      intro h0
      exact hr (List.length_eq_zero.1 h0)
    omega

/-- Helper: the queue written by setCurrentQueue is read back by
currentQueue. -/
theorem currentQueue_setCurrentQueue_self (s : DemuxState) (n : ℕ) (q : Queue)
    (hr : s.ranges ≠ []) (hn : n < (currentRange s).queues.length) :
    currentQueue (setCurrentQueue s n q) n = q := by
  unfold currentQueue
  rw [currentRange_setCurrentQueue s n q hr]
  simp [List.getElem?_set_self, hn]

/-- Helper: setCurrentRangeSeek keeps the queues of the current range. -/
theorem currentQueue_setCurrentRangeSeek (s : DemuxState) (m : ℕ) :
    currentQueue (setCurrentRangeSeek s) m = currentQueue s m := by
  unfold setCurrentRangeSeek
  cases h : s.ranges.getLast? with
  | none => rfl
  | some cur =>
    unfold currentQueue currentRange updateRangeSeek
    simp [h, List.getLast?_concat]

/-- Helper: setCurrentRangeSeek keeps the range count and nonemptiness. -/
theorem ranges_length_setCurrentRangeSeek (s : DemuxState) (hr : s.ranges ≠ []) :
    (setCurrentRangeSeek s).ranges.length = s.ranges.length := by
  unfold setCurrentRangeSeek
  cases h : s.ranges.getLast? with
  | none => rfl
  | some cur =>
    simp only [List.length_append, List.length_dropLast, List.length_cons, List.length_nil]
    have : s.ranges.length ≠ 0 := by
      intro h0
      exact hr (List.length_eq_zero.1 h0)
    omega

/-- Helper: the queues of the current range after setCurrentRangeSeek. -/
theorem currentRange_queues_setCurrentRangeSeek (s : DemuxState) :
    (currentRange (setCurrentRangeSeek s)).queues = (currentRange s).queues := by
  unfold setCurrentRangeSeek
  cases h : s.ranges.getLast? with
  | none => rfl
  | some cur =>
    unfold currentRange updateRangeSeek
    simp [h, List.getLast?_concat]

/-- Helper: with a single cached range there is no candidate to join, so
attempt_range_joining is the identity. -/
theorem attempt_range_joining_single (s : DemuxState) (h : s.ranges.length = 1) :
    attempt_range_joining s = (s, false) := by
  obtain ⟨r, hr⟩ := List.length_eq_one.1 h
  unfold attempt_range_joining
  rw [hr]
  simp [findNextGo]

/-- Helper: with a single cached range (no candidate to join),
adjust_seek_range_on_packet never changes the correctness flags or the
last_pos/last_dts/last_ts history of the stream's queue. -/
theorem adjust_preserves_history (s : DemuxState) (n : ℕ) (dp : Option Packet)
    (h1 : s.ranges.length = 1) (hn : n < (currentRange s).queues.length) :
    (currentQueue (adjust_seek_range_on_packet s n dp) n).correct_dts =
      (currentQueue s n).correct_dts ∧
    (currentQueue (adjust_seek_range_on_packet s n dp) n).correct_pos =
      (currentQueue s n).correct_pos ∧
    (currentQueue (adjust_seek_range_on_packet s n dp) n).last_dts =
      (currentQueue s n).last_dts ∧
    (currentQueue (adjust_seek_range_on_packet s n dp) n).last_pos =
      (currentQueue s n).last_pos ∧
    (currentQueue (adjust_seek_range_on_packet s n dp) n).last_ts =
      (currentQueue s n).last_ts := by
  have hr : s.ranges ≠ [] := by
    intro h0
    rw [h0] at h1
    simp at h1
  have hne : ∀ t : DemuxState, t.ranges.length = 1 → t.ranges ≠ [] := by
    intro t ht h0
    rw [h0] at ht
    simp at ht
  by_cases hsc : s.seekable_cache = true
  swap
  · unfold adjust_seek_range_on_packet
    rw [if_pos (by simp [hsc])]
    exact ⟨rfl, rfl, rfl, rfl, rfl⟩
  · unfold adjust_seek_range_on_packet
    rw [if_neg (by simp [hsc])]
    cases dp with
    | none =>
      dsimp only
      cases hkl : (currentQueue s n).keyframe_latest with
      | none =>
        dsimp only
        simp only [eq_self_iff_true, if_true, Bool.false_eq_true, if_false]
        rw [currentQueue_setCurrentQueue_self s n _ hr hn]
        exact ⟨rfl, rfl, rfl, rfl, rfl⟩
      | some klid =>
        dsimp only
        simp only [eq_self_iff_true, if_true]
        rw [attempt_range_joining_single]
        · dsimp only
          rw [ite_self]
          rw [currentQueue_setCurrentRangeSeek, currentQueue_setCurrentQueue_self s n _ hr hn]
          refine ⟨?_, ?_, ?_, ?_, ?_⟩ <;> (split_ifs <;> rfl)
        · rw [ranges_length_setCurrentRangeSeek, ranges_length_setCurrentQueue s n _ hr]
          · exact h1
          · exact ranges_ne_nil_setCurrentQueue s n _ hr
    | some p =>
      dsimp only
      by_cases hkf : p.keyframe = true
      · rw [if_pos hkf]
        cases hkl : (currentQueue s n).keyframe_latest with
        | none =>
          dsimp only
          simp only [eq_self_iff_true, if_true, Bool.false_eq_true, if_false]
          rw [currentQueue_setCurrentQueue_self _ n _
            (ranges_ne_nil_setCurrentQueue s n _ hr)
            (by rw [currentRange_setCurrentQueue s n _ hr]; simpa using hn)]
          rw [currentQueue_setCurrentQueue_self s n _ hr hn]
          exact ⟨rfl, rfl, rfl, rfl, rfl⟩
        | some klid =>
          dsimp only
          rw [attempt_range_joining_single]
          · dsimp only
            rw [ite_self]
            rw [currentQueue_setCurrentQueue_self]
            · rw [currentQueue_setCurrentRangeSeek, currentQueue_setCurrentQueue_self s n _ hr hn]
              refine ⟨?_, ?_, ?_, ?_, ?_⟩ <;> (split_ifs <;> rfl)
            · apply hne
              rw [ranges_length_setCurrentRangeSeek, ranges_length_setCurrentQueue s n _ hr]
              · exact h1
              · exact ranges_ne_nil_setCurrentQueue s n _ hr
            · rw [currentRange_queues_setCurrentRangeSeek, currentRange_setCurrentQueue s n _ hr]
              simpa using hn
          · rw [ranges_length_setCurrentQueue, ranges_length_setCurrentRangeSeek,
                ranges_length_setCurrentQueue s n _ hr]
            · exact h1
            · exact ranges_ne_nil_setCurrentQueue s n _ hr
            · apply hne
              rw [ranges_length_setCurrentRangeSeek, ranges_length_setCurrentQueue s n _ hr]
              · exact h1
              · exact ranges_ne_nil_setCurrentQueue s n _ hr
      · rw [if_neg hkf]
        dsimp only
        simp only [Bool.false_eq_true, if_false]
        rw [currentQueue_setCurrentQueue_self s n _ hr hn]
        exact ⟨rfl, rfl, rfl, rfl, rfl⟩

/-- Helper: projection of adjust_preserves_history (correct_dts). -/
theorem adjust_preserves_correct_dts (s : DemuxState) (n : ℕ) (dp : Option Packet)
    (h1 : s.ranges.length = 1) (hn : n < (currentRange s).queues.length) :
    (currentQueue (adjust_seek_range_on_packet s n dp) n).correct_dts =
      (currentQueue s n).correct_dts :=
  (adjust_preserves_history s n dp h1 hn).1

/-- Helper: projection of adjust_preserves_history (correct_pos). -/
theorem adjust_preserves_correct_pos (s : DemuxState) (n : ℕ) (dp : Option Packet)
    (h1 : s.ranges.length = 1) (hn : n < (currentRange s).queues.length) :
    (currentQueue (adjust_seek_range_on_packet s n dp) n).correct_pos =
      (currentQueue s n).correct_pos :=
  (adjust_preserves_history s n dp h1 hn).2.1

/-- Helper: projection of adjust_preserves_history (last_ts). -/
theorem adjust_preserves_last_ts (s : DemuxState) (n : ℕ) (dp : Option Packet)
    (h1 : s.ranges.length = 1) (hn : n < (currentRange s).queues.length) :
    (currentQueue (adjust_seek_range_on_packet s n dp) n).last_ts =
      (currentQueue s n).last_ts :=
  (adjust_preserves_history s n dp h1 hn).2.2.2.2

/-- Helper: setStream does not change the current range. -/
theorem currentRange_setStream (s : DemuxState) (n : ℕ) (d : Stream) :
    currentRange (setStream s n d) = currentRange s := rfl

/-- Helper: the stream type survives the per-packet stream transforms. -/
theorem apGlobalFlags_stype (d : Stream) (q : Queue) : (apGlobalFlags d q).stype = d.stype := rfl

/-- Helper: the stream type survives apTakeRH. -/
theorem apTakeRH_stype (d : Stream) (dp : Packet) : (apTakeRH d dp).stype = d.stype := by
  unfold apTakeRH
  split_ifs <;> rfl

/-- Helper: the stream type survives apFwAccount. -/
theorem apFwAccount_stype (d : Stream) (b : ℕ) : (apFwAccount d b).stype = d.stype := by
  unfold apFwAccount
  split_ifs <;> rfl

/-- Helper: the stream type survives apEofReset. -/
theorem apEofReset_stype (d : Stream) : (apEofReset d).stype = d.stype := by
  unfold apEofReset
  split_ifs <;> rfl

/-- Helper: the code's strict non-regression test for last_ts agrees with the
inclusive one as a value (on equality, assigning is a no-op). -/
theorem lastTs_strict_eq_ge (ts lt : ℚ) :
    (if ts ≠ MP_NOPTS_VALUE ∧ (ts > lt ∨ ts + 10 < lt) then ts else lt) =
    (if ts ≠ MP_NOPTS_VALUE ∧ (ts ≥ lt ∨ ts + 10 < lt) then ts else lt) := by
  by_cases he : ts = lt
  · subst he
    split_ifs <;> simp_all
  · have hiff : (ts > lt ∨ ts + 10 < lt) ↔ (ts ≥ lt ∨ ts + 10 < lt) := by
      constructor
      · rintro (h | h)
        · exact Or.inl (le_of_lt h)
        · exact Or.inr h
      · rintro (h | h)
        · exact Or.inl (lt_of_le_of_ne h (Ne.symm he))
        · exact Or.inr h
    simp only [hiff]

/-- C5: for every packet accepted into a queue by demux_add_packet (selected
stream, not refreshing, no refresh or seek pending, single cached range so no
range joining interferes), the queue's correctness flags are narrowed exactly
by the code's conditions — correct_dts by (dts valid and strictly above
last_dts), correct_pos analogously with the validity test pos >= 0 — and
last_ts becomes the packet's effective timestamp exactly when that timestamp
is valid and non-regressing, or more than 10 seconds in the past. -/
theorem C5_append_updates_history (s : DemuxState) (n : ℕ) (d : Stream) (dp : Packet)
    (hd : s.streams[n]? = some d)
    (hsel : d.selected = true) (href : d.refreshing = false) (hnr : d.need_refresh = false)
    (hseek : s.seeking = false) (hlen : dp.len ≠ 0)
    (hone : s.ranges.length = 1) (hq : n < (currentRange s).queues.length) :
    (currentQueue (demux_add_packet s (some (some n)) (some dp)) n).correct_dts =
      ((currentQueue s n).correct_dts &&
        decide (dp.dts ≠ MP_NOPTS_VALUE ∧ dp.dts > (currentQueue s n).last_dts)) ∧
    (currentQueue (demux_add_packet s (some (some n)) (some dp)) n).correct_pos =
      ((currentQueue s n).correct_pos &&
        decide (dp.pos ≥ 0 ∧ dp.pos > (currentQueue s n).last_pos)) ∧
    (currentQueue (demux_add_packet s (some (some n)) (some dp)) n).last_ts =
      (if apEffectiveTs d.stype { dp with stream := (n : ℤ) } ≠ MP_NOPTS_VALUE ∧
          (apEffectiveTs d.stype { dp with stream := (n : ℤ) } ≥ (currentQueue s n).last_ts ∨
           apEffectiveTs d.stype { dp with stream := (n : ℤ) } + 10 < (currentQueue s n).last_ts)
       then apEffectiveTs d.stype { dp with stream := (n : ℤ) }
       else (currentQueue s n).last_ts) := by
  have hr : s.ranges ≠ [] := by
    intro h0
    rw [h0] at hone
    simp at hone
  have hn : n < s.streams.length := by
    by_contra hc
    rw [List.getElem?_eq_none (Nat.le_of_not_lt hc)] at hd
    exact Option.noConfusion hd
  have hadd : demux_add_packet s (some (some n)) (some dp) = addPacketLocked s n dp := by
    simp [demux_add_packet, hlen, hn]
  have hRefId : apRefreshStream d (currentQueue s n) dp = d := by
    unfold apRefreshStream
    rw [href]
    simp
  rw [hadd]
  unfold addPacketLocked
  rw [hd]
  dsimp only [Option.getD_some]
  rw [if_neg (by simp [hsel, hnr, hseek, href])]
  rw [hRefId]
  refine ⟨?_, ?_, ?_⟩
  · rw [adjust_preserves_correct_dts]
    · rw [currentQueue_setCurrentQueue_self]
      · unfold apLastTs
        split_ifs <;> rfl
      · exact hr
      · exact hq
    · rw [ranges_length_setCurrentQueue]
      · exact hone
      · exact hr
    · rw [currentRange_setCurrentQueue]
      · simpa using hq
      · exact hr
  · rw [adjust_preserves_correct_pos]
    · rw [currentQueue_setCurrentQueue_self]
      · unfold apLastTs
        split_ifs <;> rfl
      · exact hr
      · exact hq
    · rw [ranges_length_setCurrentQueue]
      · exact hone
      · exact hr
    · rw [currentRange_setCurrentQueue]
      · simpa using hq
      · exact hr
  · rw [adjust_preserves_last_ts]
    · rw [currentQueue_setCurrentQueue_self]
      · unfold apLastTs
        rw [apEofReset_stype, apFwAccount_stype, apTakeRH_stype, apGlobalFlags_stype]
        rw [show apPacketTs (apFixPts d.stype { dp with stream := (n : ℤ) }) =
            apEffectiveTs d.stype { dp with stream := (n : ℤ) } from rfl]
        rw [apply_ite Queue.last_ts]
        dsimp only
        simp only [show (apQueueFlags (currentQueue s n) dp).last_ts =
          (currentQueue s n).last_ts from rfl]
        exact lastTs_strict_eq_ge _ _
      · exact hr
      · exact hq
    · rw [ranges_length_setCurrentQueue]
      · exact hone
      · exact hr
    · rw [currentRange_setCurrentQueue]
      · simpa using hq
      · exact hr

/-- Witness for C5 at the concrete one-stream state wBase, appending a
keyframe packet with pts = dts = 6 at position 20. -/
theorem C5_append_updates_history_witness :
    (currentQueue (demux_add_packet wBase (some (some 0))
        (some (wPacket 2 6 6 20 50 true MP_NOPTS_VALUE))) 0).correct_dts =
      ((currentQueue wBase 0).correct_dts &&
        decide ((wPacket 2 6 6 20 50 true MP_NOPTS_VALUE).dts ≠ MP_NOPTS_VALUE ∧
          (wPacket 2 6 6 20 50 true MP_NOPTS_VALUE).dts > (currentQueue wBase 0).last_dts)) ∧
    (currentQueue (demux_add_packet wBase (some (some 0))
        (some (wPacket 2 6 6 20 50 true MP_NOPTS_VALUE))) 0).correct_pos =
      ((currentQueue wBase 0).correct_pos &&
        decide ((wPacket 2 6 6 20 50 true MP_NOPTS_VALUE).pos ≥ 0 ∧
          (wPacket 2 6 6 20 50 true MP_NOPTS_VALUE).pos > (currentQueue wBase 0).last_pos)) ∧
    (currentQueue (demux_add_packet wBase (some (some 0))
        (some (wPacket 2 6 6 20 50 true MP_NOPTS_VALUE))) 0).last_ts =
      (if apEffectiveTs wStream.stype
            { wPacket 2 6 6 20 50 true MP_NOPTS_VALUE with stream := ((0 : ℕ) : ℤ) } ≠
              MP_NOPTS_VALUE ∧
          (apEffectiveTs wStream.stype
              { wPacket 2 6 6 20 50 true MP_NOPTS_VALUE with stream := ((0 : ℕ) : ℤ) } ≥
              (currentQueue wBase 0).last_ts ∨
           apEffectiveTs wStream.stype
              { wPacket 2 6 6 20 50 true MP_NOPTS_VALUE with stream := ((0 : ℕ) : ℤ) } + 10 <
              (currentQueue wBase 0).last_ts)
       then apEffectiveTs wStream.stype
              { wPacket 2 6 6 20 50 true MP_NOPTS_VALUE with stream := ((0 : ℕ) : ℤ) }
       else (currentQueue wBase 0).last_ts) :=
  C5_append_updates_history wBase 0 wStream (wPacket 2 6 6 20 50 true MP_NOPTS_VALUE)
    rfl rfl rfl rfl rfl (by decide) rfl (by decide)

/-- Helper: size_t subtraction always lands below the modulus. -/
theorem szSub_lt (a b : ℕ) : szSub a b < W64 := by
  unfold szSub W64
  exact Nat.mod_lt _ (by norm_num)

/-- Helper: size_t subtraction is exact below the modulus. -/
theorem szSub_exact (a b : ℕ) (hb : b ≤ a) (ha : a < W64) : szSub a b = a - b := by
  unfold szSub
  have hbW : b % W64 = b := Nat.mod_eq_of_lt (lt_of_le_of_lt hb ha)
  rw [hbW]
  have h1 : a + (W64 - b) = (a - b) + W64 := by
    have hbW2 : b ≤ W64 := le_of_lt (lt_of_le_of_lt hb ha)
    omega
  rw [h1, Nat.add_mod_right]
  exact Nat.mod_eq_of_lt (lt_of_le_of_lt (Nat.sub_le a b) ha)

/-- Helper: size_t subtraction of zero below the modulus. -/
theorem szSub_zero (a : ℕ) (ha : a < W64) : szSub a 0 = a := by
  rw [szSub_exact a 0 (Nat.zero_le a) ha]
  exact Nat.sub_zero a

/-- Helper: subtracting exactly the sizes that make up the total gives 0. -/
theorem subBytes_eq_zero : ∀ (ps : List Packet) (t : ℕ),
    t = (ps.map demux_packet_estimate_total_size).sum → t < W64 → subBytes t ps = 0 := by
  intro ps
  induction ps with
  | nil =>
    intro t ht _
    simpa [subBytes] using ht
  | cons p rest ih =>
    intro t ht hW
    have hple : demux_packet_estimate_total_size p ≤ t := by
      rw [ht]
      simp
    have hstep : szSub t (demux_packet_estimate_total_size p) =
        (rest.map demux_packet_estimate_total_size).sum := by
      rw [szSub_exact _ _ hple hW, ht]
      simp
    show subBytes (szSub t (demux_packet_estimate_total_size p)) rest = 0
    refine ih _ hstep ?_
    rw [hstep]
    exact lt_of_le_of_lt (by rw [ht]; simp) hW

/-- Helper: folding size_t subtraction over stream fw_bytes lands below the
modulus whenever the seed does. -/
theorem foldl_szSub_fw_lt : ∀ (l : List Stream) (a : ℕ), a < W64 →
    l.foldl (fun a d => szSub a d.fw_bytes) a < W64 := by
  intro l
  induction l with
  | nil => intro a ha; exact ha
  | cons d rest ih => intro a _; exact ih _ (szSub_lt a d.fw_bytes)

/-- Helper: folding size_t subtraction over streams with zero fw_bytes is the
identity below the modulus. -/
theorem foldl_szSub_zeros : ∀ (l : List Stream) (a : ℕ), (∀ d ∈ l, d.fw_bytes = 0) →
    a < W64 → l.foldl (fun a d => szSub a d.fw_bytes) a = a := by
  intro l
  induction l with
  | nil => intro a _ _; rfl
  | cons d rest ih =>
    intro a h ha
    have hd : d.fw_bytes = 0 := h d (List.mem_cons_self d rest)
    show rest.foldl (fun a d => szSub a d.fw_bytes) (szSub a d.fw_bytes) = a
    rw [hd, szSub_zero a ha]
    exact ih a (fun x hx => h x (List.mem_cons_of_mem d hx)) ha

/-- ds_clear_reader_state is idempotent. -/
theorem ds_clear_idem (d : Stream) :
    ds_clear_reader_state (ds_clear_reader_state d) = ds_clear_reader_state d := rfl

/-- ds_clear_reader_state zeroes the forward byte count. -/
theorem ds_clear_fw (d : Stream) : (ds_clear_reader_state d).fw_bytes = 0 := rfl

/-- Helper: flattening a list of empty lists gives the empty list. -/
theorem flatten_eq_nil_of_forall {α : Type} : ∀ (l : List (List α)),
    (∀ x ∈ l, x = []) → l.flatten = [] := by
  intro l
  induction l with
  | nil => intro _; rfl
  | cons x rest ih =>
    intro h
    have hx : x = [] := h x (List.mem_cons_self x rest)
    show x ++ rest.flatten = []
    rw [hx, List.nil_append]
    exact ih (fun y hy => h y (List.mem_cons_of_mem x hy))

/-- Helper: the update_seek_ranges fold stays at NOPTS when every queue
contributes a NOPTS seek_start. -/
theorem usrFold_nopts_starts : ∀ (l : List (Bool × ℚ × ℚ)),
    (∀ x ∈ l, x.2.1 = MP_NOPTS_VALUE) →
    usrFold l MP_NOPTS_VALUE MP_NOPTS_VALUE = (MP_NOPTS_VALUE, MP_NOPTS_VALUE) := by
  intro l
  induction l with
  | nil => intro _; rfl
  | cons x rest ih =>
    intro h
    obtain ⟨sel, qs, qe⟩ := x
    have hq : qs = MP_NOPTS_VALUE := h (sel, qs, qe) (List.mem_cons_self _ _)
    cases sel with
    | false =>
      simp only [usrFold, Bool.false_eq_true, if_false]
      exact ih (fun y hy => h y (List.mem_cons_of_mem _ hy))
    | true =>
      simp only [usrFold, eq_self_iff_true, if_true]
      rw [if_pos (Or.inl hq)]

/-- Helper: queue triples built from all-cleared queues have NOPTS starts. -/
theorem queueSel_cleared (sels : List Bool) (qs : List Queue) :
    ∀ x ∈ queueSel sels (qs.map (fun _ => clear_queue)), x.2.1 = MP_NOPTS_VALUE := by
  intro x hx
  unfold queueSel at hx
  obtain ⟨p, hp, hpx⟩ := List.mem_map.mp hx
  have h2 := (List.of_mem_zip hp).2
  obtain ⟨q, _, hqe⟩ := List.mem_map.mp h2
  have hpq : p.2 = clear_queue := hqe.symm
  rw [← hpx]
  show p.2.seek_start = MP_NOPTS_VALUE
  rw [hpq]
  rfl

/-- Helper: update_seek_ranges over all-cleared queues collapses to NOPTS. -/
theorem update_seek_ranges_cleared (sels : List Bool) (qs : List Queue) :
    update_seek_ranges (queueSel sels (qs.map (fun _ => clear_queue))) =
      (MP_NOPTS_VALUE, MP_NOPTS_VALUE) := by
  unfold update_seek_ranges
  dsimp only
  rw [usrFold_nopts_starts _ (queueSel_cleared sels qs)]
  rw [if_pos (le_refl MP_NOPTS_VALUE)]

/-- Helper: a cleared range's aggregate seek_start is NOPTS. -/
theorem clearRange_seek_start (sels : List Bool) (r : Range) :
    (clearRange sels r).seek_start = MP_NOPTS_VALUE := by
  unfold clearRange updateRangeSeek
  dsimp only
  rw [update_seek_ranges_cleared]

/-- Helper: a cleared range's queues are all clear_queue. -/
theorem clearRange_queues (sels : List Bool) (r : Range) :
    (clearRange sels r).queues = r.queues.map (fun _ => clear_queue) := rfl

/-- Helper: a cleared range holds no packets. -/
theorem rangePackets_clearRange (sels : List Bool) (r : Range) :
    rangePackets (clearRange sels r) = [] := by
  unfold rangePackets
  rw [clearRange_queues, List.map_map]
  exact flatten_eq_nil_of_forall _ (by
    intro x hx
    obtain ⟨q, _, hq⟩ := List.mem_map.mp hx
    exact hq.symm)

/-- Helper: clearing a range twice is the same as clearing it once. -/
theorem clearRange_idem (sels : List Bool) (r : Range) :
    clearRange sels (clearRange sels r) = clearRange sels r := by
  obtain ⟨qs, ss, se⟩ := r
  simp only [clearRange, updateRangeSeek, List.map_map]
  rfl

/-- Helper: getLast?-getD commutes with List.map on nonempty lists. -/
theorem getLastD_map {α β : Type} (f : α → β) (d : α) (e : β) :
    ∀ (l : List α), l ≠ [] → ((l.map f).getLast?).getD e = f ((l.getLast?).getD d) := by
  intro l
  induction l with
  | nil => intro hn; exact absurd rfl hn
  | cons x rest ih =>
    intro _
    cases rest with
    | nil => rfl
    | cons y t =>
      have h1 : ((x :: y :: t).map f).getLast? = ((y :: t).map f).getLast? := by
        simp only [List.map_cons, List.getLast?_cons_cons]
      have h2 : (x :: y :: t).getLast? = (y :: t).getLast? := List.getLast?_cons_cons
      rw [h1, h2]
      exact ih (List.cons_ne_nil y t)

/-- Helper: clear_reader_state fixes states that are already cleared. -/
theorem clear_reader_state_fixed (u : DemuxState)
    (hs : u.streams.map ds_clear_reader_state = u.streams)
    (hf : ∀ d ∈ u.streams, d.fw_bytes = 0)
    (hW : u.fw_bytes < W64)
    (hw : u.warned_queue_overflow = false)
    (hp : u.filepos = -1) :
    clear_reader_state u = u := by
  unfold clear_reader_state
  rw [hs, foldl_szSub_zeros u.streams u.fw_bytes hf hW]
  rw [← hw, ← hp]

/-- Helper: demux_flush on a state with no cached range only clears the
reader state. -/
theorem demux_flush_eq_of_nil (s : DemuxState) (h : s.ranges = []) :
    demux_flush s = { clear_reader_state s with ranges := [] } := by
  unfold demux_flush
  dsimp only
  have hap : allPackets (clear_reader_state s) = [] := by
    unfold allPackets
    rw [show (clear_reader_state s).ranges = s.ranges from rfl, h]
    rfl
  rw [show (clear_reader_state s).ranges = s.ranges from rfl, h, hap]
  unfold free_empty_cached_ranges
  dsimp only
  rw [show List.map (clearRange ((clear_reader_state s).streams.map fun d => d.selected))
      ([] : List Range) = ([] : List Range) from rfl]
  rw [if_pos rfl]
  rfl

/-- Helper: demux_flush on a state with at least one cached range keeps only
the cleared current range. -/
theorem demux_flush_eq_of_ne_nil (s : DemuxState) (h : s.ranges ≠ []) :
    demux_flush s = { clear_reader_state s with
      ranges := [clearRange (s.streams.map (fun d => d.selected)) (currentRange s)]
      total_bytes := subBytes s.total_bytes (allPackets s) } := by
  unfold demux_flush
  dsimp only
  have hr1 : (clear_reader_state s).ranges = s.ranges := rfl
  have ht1 : (clear_reader_state s).total_bytes = s.total_bytes := rfl
  have hap : allPackets (clear_reader_state s) = allPackets s := rfl
  have hsel : (clear_reader_state s).streams.map (fun d => d.selected)
      = s.streams.map (fun d => d.selected) := by
    simp only [clear_reader_state, List.map_map, Function.comp, ds_clear_reader_state]
    exact List.map_congr_left fun a _ => rfl
  rw [hr1, ht1, hap, hsel]
  unfold free_empty_cached_ranges
  dsimp only
  have hne : s.ranges.map (clearRange (s.streams.map fun d => d.selected)) ≠ [] := by
    cases hsr : s.ranges with
    | nil => exact absurd hsr h
    | cons a l => simp
  rw [if_neg hne]
  dsimp only
  have hkept : ((s.ranges.map (clearRange (s.streams.map fun d => d.selected))).dropLast).filter
      (fun r => !decide (r.seek_start = MP_NOPTS_VALUE)) = [] := by
    rw [List.filter_eq_nil_iff]
    intro r hr
    have hr2 : r ∈ s.ranges.map (clearRange (s.streams.map fun d => d.selected)) :=
      List.dropLast_subset _ hr
    obtain ⟨r0, _, hr0⟩ := List.mem_map.mp hr2
    rw [← hr0, clearRange_seek_start]
    simp
  have hfreed : ((((s.ranges.map (clearRange (s.streams.map fun d => d.selected))).dropLast).filter
      (fun r => decide (r.seek_start = MP_NOPTS_VALUE))).map rangePackets).flatten = [] := by
    apply flatten_eq_nil_of_forall
    intro x hx
    obtain ⟨r, hr, hrx⟩ := List.mem_map.mp hx
    have hr2 : r ∈ s.ranges.map (clearRange (s.streams.map fun d => d.selected)) :=
      List.dropLast_subset _ (List.mem_of_mem_filter hr)
    obtain ⟨r0, _, hr0⟩ := List.mem_map.mp hr2
    rw [← hrx, ← hr0, rangePackets_clearRange]
  have hcur : (((s.ranges.map (clearRange (s.streams.map fun d => d.selected))).getLast?).getD
      emptyRange) = clearRange (s.streams.map fun d => d.selected) (currentRange s) := by
    unfold currentRange
    exact getLastD_map _ emptyRange emptyRange s.ranges h
  rw [hkept, hfreed, hcur]
  rfl

/-- Helper: the seek-target preference order is reflexive. -/
theorem fst_pref_refl (fwd : Bool) (pts x : ℚ) : fst_pref fwd pts x x := by
  unfold fst_pref
  split_ifs with h1 h2
  · exact le_refl x
  · exact fun _ => le_refl x
  · exact ⟨not_le.mp h2, le_refl x⟩

/-- Helper: the seek-target preference order is transitive. -/
theorem fst_pref_trans (fwd : Bool) (pts x y z : ℚ)
    (h1 : fst_pref fwd pts x y) (h2 : fst_pref fwd pts y z) : fst_pref fwd pts x z := by
  unfold fst_pref at h1 h2 ⊢
  by_cases hf : fwd = true
  · rw [if_pos hf] at h1 h2 ⊢
    exact le_trans h1 h2
  · rw [if_neg hf] at h1 h2 ⊢
    by_cases hx : x ≤ pts
    · rw [if_pos hx] at h1 ⊢
      intro hz
      by_cases hy : y ≤ pts
      · rw [if_pos hy] at h2
        exact le_trans (h2 hz) (h1 hy)
      · rw [if_neg hy] at h2
        exact absurd h2.1 (not_lt.mpr hz)
    · rw [if_neg hx] at h1 ⊢
      by_cases hy : y ≤ pts
      · exact absurd h1.1 (not_lt.mpr hy)
      · rw [if_neg hy] at h2
        exact ⟨h2.1, le_trans h1.2 h2.2⟩

/-- Helper: the find_seek_target loop postcondition survives skipping an
inadmissible packet. -/
theorem fstConcl_skip (fwd : Bool) (pts : ℚ) (dp : Packet) (l : List Packet)
    (target res : Option Packet) (hdp : ¬ fst_adm fwd pts dp)
    (h : fstConcl fwd pts l target res) : fstConcl fwd pts (dp :: l) target res := by
  obtain ⟨hn, hs⟩ := h
  constructor
  · rw [hn]
    constructor
    · rintro ⟨hx1, hx2⟩
      refine ⟨hx1, fun p hp => ?_⟩
      rcases List.mem_cons.mp hp with rfl | hmem
      · exact hdp
      · exact hx2 p hmem
    · rintro ⟨hx1, hx2⟩
      exact ⟨hx1, fun p hp => hx2 p (List.mem_cons_of_mem _ hp)⟩
  · intro u hu
    obtain ⟨hA, hB, hC⟩ := hs u hu
    refine ⟨?_, ?_, hC⟩
    · rcases hA with ⟨hm, ha⟩ | ht
      · exact Or.inl ⟨List.mem_cons_of_mem _ hm, ha⟩
      · exact Or.inr ht
    · intro p hp hap
      rcases List.mem_cons.mp hp with rfl | hmem
      · exact absurd hap hdp
      · exact hB p hmem hap

/-- Helper: the find_seek_target loop postcondition survives keeping the
current target against an admissible but not preferred packet. -/
theorem fstConcl_keep (fwd : Bool) (pts : ℚ) (dp : Packet) (l : List Packet)
    (t : Packet) (res : Option Packet)
    (hpref : fst_pref fwd pts t.kf_seek_pts dp.kf_seek_pts)
    (h : fstConcl fwd pts l (some t) res) : fstConcl fwd pts (dp :: l) (some t) res := by
  obtain ⟨hn, hs⟩ := h
  constructor
  · constructor
    · intro h'
      exact absurd (hn.mp h').1 (fun hx => Option.noConfusion hx)
    · rintro ⟨hx1, _⟩
      exact absurd hx1 (fun hx => Option.noConfusion hx)
  · intro u hu
    obtain ⟨hA, hB, hC⟩ := hs u hu
    have hut : fst_pref fwd pts u.kf_seek_pts t.kf_seek_pts := hC t rfl
    refine ⟨?_, ?_, ?_⟩
    · rcases hA with ⟨hm, ha⟩ | ht
      · exact Or.inl ⟨List.mem_cons_of_mem _ hm, ha⟩
      · exact Or.inr ht
    · intro p hp hap
      rcases List.mem_cons.mp hp with rfl | hmem
      · exact fst_pref_trans fwd pts _ _ _ hut hpref
      · exact hB p hmem hap
    · intro t' ht'
      have htt : t = t' := Option.some.inj ht'
      exact htt ▸ hut

/-- Helper: the find_seek_target loop postcondition survives replacing the
target with an admissible packet preferred over it. -/
theorem fstConcl_take (fwd : Bool) (pts : ℚ) (dp : Packet) (l : List Packet)
    (target res : Option Packet) (hadm : fst_adm fwd pts dp)
    (hpref : ∀ t, target = some t → fst_pref fwd pts dp.kf_seek_pts t.kf_seek_pts)
    (h : fstConcl fwd pts l (some dp) res) : fstConcl fwd pts (dp :: l) target res := by
  obtain ⟨hn, hs⟩ := h
  constructor
  · constructor
    · intro h'
      exact absurd (hn.mp h').1 (fun hx => Option.noConfusion hx)
    · rintro ⟨_, hx2⟩
      exact absurd hadm (hx2 dp (List.mem_cons_self _ _))
  · intro u hu
    obtain ⟨hA, hB, hC⟩ := hs u hu
    have hud : fst_pref fwd pts u.kf_seek_pts dp.kf_seek_pts := hC dp rfl
    refine ⟨?_, ?_, ?_⟩
    · rcases hA with ⟨hm, ha⟩ | ht
      · exact Or.inl ⟨List.mem_cons_of_mem _ hm, ha⟩
      · have hdu : dp = u := Option.some.inj ht
        subst hdu
        exact Or.inl ⟨List.mem_cons_self _ _, hadm⟩
    · intro p hp hap
      rcases List.mem_cons.mp hp with rfl | hmem
      · exact hud
      · exact hB p hmem hap
    · intro t ht
      exact fst_pref_trans fwd pts _ _ _ hud (hpref t ht)

/-- Helper: full characterisation of the find_seek_target loop by induction
over the packet list, provided no computed distance collides with the NOPTS
sentinel. -/
theorem fstGo_spec (fwd : Bool) (pts : ℚ) :
    ∀ (l : List Packet),
      (∀ p ∈ l, p.kf_seek_pts - pts ≠ MP_NOPTS_VALUE ∧
        -(p.kf_seek_pts - pts) ≠ MP_NOPTS_VALUE) →
    ∀ (target : Option Packet) (td : ℚ),
      (target = none ∧ td = MP_NOPTS_VALUE ∨
        ∃ t, target = some t ∧ fst_adm fwd pts t ∧ td = fst_dif fwd pts t ∧
          td ≠ MP_NOPTS_VALUE) →
      fstConcl fwd pts l target (fstGo pts fwd l target td) := by
  intro l
  induction l with
  | nil =>
    intro _ target td _
    refine ⟨⟨fun h' => ⟨h', fun p hp => absurd hp (List.not_mem_nil p)⟩,
      fun h' => h'.1⟩, ?_⟩
    intro u hu
    refine ⟨Or.inr hu, fun p hp _ => absurd hp (List.not_mem_nil p), ?_⟩
    intro t ht
    have htu : u = t := Option.some.inj ((Eq.symm hu).trans ht)
    rw [← htu]
    exact fst_pref_refl fwd pts u.kf_seek_pts
  | cons dp rest ih =>
    intro hno target td hinv
    have hnodp := hno dp (List.mem_cons_self _ _)
    have hnorest : ∀ p ∈ rest, p.kf_seek_pts - pts ≠ MP_NOPTS_VALUE ∧
        -(p.kf_seek_pts - pts) ≠ MP_NOPTS_VALUE :=
      fun p hp => hno p (List.mem_cons_of_mem _ hp)
    simp only [fstGo]
    by_cases h1 : ¬dp.keyframe = true ∨ dp.kf_seek_pts = MP_NOPTS_VALUE
    · rw [if_pos h1]
      refine fstConcl_skip fwd pts dp rest target _ ?_ (ih hnorest target td hinv)
      intro ha
      unfold fst_adm at ha
      obtain ⟨hk, hnn, _⟩ := ha
      rcases h1 with h | h
      · exact h hk
      · exact hnn h
    · rw [if_neg h1]
      push_neg at h1
      by_cases h2 : fwd = true ∧
          (if fwd = true then -(dp.kf_seek_pts - pts) else dp.kf_seek_pts - pts) > 0
      · rw [if_pos h2]
        refine fstConcl_skip fwd pts dp rest target _ ?_ (ih hnorest target td hinv)
        intro ha
        unfold fst_adm at ha
        obtain ⟨_, _, hge⟩ := ha
        obtain ⟨hf, hdpos⟩ := h2
        rw [if_pos hf] at hdpos
        have hge2 := hge hf
        linarith
      · rw [if_neg h2]
        have hadm : fst_adm fwd pts dp := by
          unfold fst_adm
          refine ⟨h1.1, h1.2, ?_⟩
          intro hf
          by_contra hlt
          push_neg at hlt
          exact h2 ⟨hf, by rw [if_pos hf]; linarith⟩
        have hdne : (if fwd = true then -(dp.kf_seek_pts - pts)
            else dp.kf_seek_pts - pts) ≠ MP_NOPTS_VALUE := by
          by_cases hf : fwd = true
          · rw [if_pos hf]; exact hnodp.2
          · rw [if_neg hf]; exact hnodp.1
        by_cases h3 : td ≠ MP_NOPTS_VALUE
        · rw [if_pos h3]
          rcases hinv with ⟨_, htd⟩ | ⟨t, hts, hta, htd, _⟩
          · exact absurd htd h3
          · subst hts
            by_cases hf : fwd = true
            · subst hf
              simp only [eq_self_iff_true, if_true] at hdne ⊢
              have hptle : pts ≤ t.kf_seek_pts := hta.2.2 rfl
              have htd2 : td = -(t.kf_seek_pts - pts) := by
                rw [htd]; unfold fst_dif; rw [if_pos rfl]
              by_cases h4 : -(dp.kf_seek_pts - pts) ≤ 0
              · rw [if_pos h4]
                by_cases h5 : td ≤ 0 ∧ -(dp.kf_seek_pts - pts) ≤ td
                · rw [if_pos h5]
                  refine fstConcl_keep true pts dp rest t _ ?_
                    (ih hnorest (some t) td (Or.inr ⟨t, rfl, hta, htd, h3⟩))
                  unfold fst_pref
                  rw [if_pos rfl]
                  have h52 := h5.2
                  rw [htd2] at h52
                  linarith
                · rw [if_neg h5]
                  refine fstConcl_take true pts dp rest (some t) _ hadm ?_
                    (ih hnorest (some dp) (-(dp.kf_seek_pts - pts))
                      (Or.inr ⟨dp, rfl, hadm, rfl, hdne⟩))
                  intro t' ht'
                  have htt : t = t' := Option.some.inj ht'
                  subst htt
                  unfold fst_pref
                  rw [if_pos rfl]
                  have hnot : ¬(-(dp.kf_seek_pts - pts) ≤ td) := by
                    intro hx
                    refine h5 ⟨?_, hx⟩
                    rw [htd2]; linarith
                  push_neg at hnot
                  rw [htd2] at hnot
                  linarith
              · rw [if_neg h4]
                exfalso
                apply h2
                refine ⟨rfl, ?_⟩
                rw [if_pos rfl]
                push_neg at h4
                exact h4
            · have hf2 : fwd = false := by
                rwa [Bool.not_eq_true] at hf
              subst hf2
              simp only [Bool.false_eq_true, if_false] at hdne ⊢
              have htd2 : td = t.kf_seek_pts - pts := by
                rw [htd]; unfold fst_dif; rw [if_neg Bool.false_ne_true]
              by_cases h4 : dp.kf_seek_pts - pts ≤ 0
              · rw [if_pos h4]
                by_cases h5 : td ≤ 0 ∧ dp.kf_seek_pts - pts ≤ td
                · rw [if_pos h5]
                  refine fstConcl_keep false pts dp rest t _ ?_
                    (ih hnorest (some t) td (Or.inr ⟨t, rfl, hta, htd, h3⟩))
                  unfold fst_pref
                  rw [if_neg Bool.false_ne_true]
                  rw [if_pos (show t.kf_seek_pts ≤ pts from by
                    have h51 := h5.1; rw [htd2] at h51; linarith)]
                  intro _
                  have h52 := h5.2
                  rw [htd2] at h52
                  linarith
                · rw [if_neg h5]
                  refine fstConcl_take false pts dp rest (some t) _ hadm ?_
                    (ih hnorest (some dp) (dp.kf_seek_pts - pts)
                      (Or.inr ⟨dp, rfl, hadm, rfl, hdne⟩))
                  intro t' ht'
                  have htt : t = t' := Option.some.inj ht'
                  subst htt
                  unfold fst_pref
                  rw [if_neg Bool.false_ne_true]
                  rw [if_pos (show dp.kf_seek_pts ≤ pts from by linarith)]
                  intro hty
                  have hnot : ¬(dp.kf_seek_pts - pts ≤ td) := by
                    intro hx
                    exact h5 ⟨by rw [htd2]; linarith, hx⟩
                  push_neg at hnot
                  rw [htd2] at hnot
                  linarith
              · rw [if_neg h4]
                by_cases h6 : dp.kf_seek_pts - pts ≥ td
                · rw [if_pos h6]
                  refine fstConcl_keep false pts dp rest t _ ?_
                    (ih hnorest (some t) td (Or.inr ⟨t, rfl, hta, htd, h3⟩))
                  unfold fst_pref
                  rw [if_neg Bool.false_ne_true]
                  by_cases hty : t.kf_seek_pts ≤ pts
                  · rw [if_pos hty]
                    intro hdple
                    push_neg at h4
                    linarith
                  · rw [if_neg hty]
                    push_neg at h4 hty
                    refine ⟨by linarith, ?_⟩
                    rw [htd2] at h6
                    linarith
                · rw [if_neg h6]
                  refine fstConcl_take false pts dp rest (some t) _ hadm ?_
                    (ih hnorest (some dp) (dp.kf_seek_pts - pts)
                      (Or.inr ⟨dp, rfl, hadm, rfl, hdne⟩))
                  intro t' ht'
                  have htt : t = t' := Option.some.inj ht'
                  subst htt
                  unfold fst_pref
                  rw [if_neg Bool.false_ne_true]
                  push_neg at h4 h6
                  rw [htd2] at h6
                  rw [if_neg (not_le.mpr (show pts < dp.kf_seek_pts from by linarith))]
                  exact ⟨by linarith, by linarith⟩
        · rw [if_neg h3]
          push_neg at h3
          rcases hinv with ⟨htn, _⟩ | ⟨t, _, _, _, htdne⟩
          · subst htn
            refine fstConcl_take fwd pts dp rest none _ hadm ?_
              (ih hnorest (some dp)
                (if fwd = true then -(dp.kf_seek_pts - pts) else dp.kf_seek_pts - pts)
                (Or.inr ⟨dp, rfl, hadm, rfl, hdne⟩))
            intro t' ht'
            exact Option.noConfusion ht'
          · exact absurd h3 htdne

/-- C3 (amended): find_seek_target returns none exactly when no admissible
packet exists (keyframe with known kf_seek_pts, and at or after pts when
SEEK_FORWARD is set); otherwise it returns an admissible packet of the queue
that is optimal in the preference order fst_pref: with SEEK_FORWARD the
smallest kf_seek_pts at or after pts; without it the largest kf_seek_pts at
or before pts when one exists, and otherwise the smallest kf_seek_pts
overall (not null, contrary to the original claim).  The hypothesis rules
out distances colliding with the NOPTS sentinel. -/
theorem C3_find_seek_target_nearest (q : Queue) (pts : ℚ) (fl : SeekFlags)
    (hno : ∀ p ∈ q.packets, p.kf_seek_pts - pts ≠ MP_NOPTS_VALUE ∧
      -(p.kf_seek_pts - pts) ≠ MP_NOPTS_VALUE) :
    (find_seek_target q pts fl = none ↔ ∀ p ∈ q.packets, ¬ fst_adm fl.forward pts p) ∧
    ∀ t, find_seek_target q pts fl = some t →
      (t ∈ q.packets ∧ fst_adm fl.forward pts t) ∧
      ∀ p ∈ q.packets, fst_adm fl.forward pts p →
        fst_pref fl.forward pts t.kf_seek_pts p.kf_seek_pts := by
  obtain ⟨hn, hs⟩ := fstGo_spec fl.forward pts q.packets hno none MP_NOPTS_VALUE
    (Or.inl ⟨rfl, rfl⟩)
  constructor
  · constructor
    · intro h'
      exact (hn.mp h').2
    · intro h'
      exact hn.mpr ⟨rfl, h'⟩
  · intro t ht
    obtain ⟨hA, hB, _⟩ := hs t ht
    refine ⟨?_, hB⟩
    rcases hA with h | h
    · exact h
    · exact Option.noConfusion h

/-- Witness for C3 at a concrete one-packet queue and seek position 3. -/
theorem C3_find_seek_target_nearest_witness :
    (find_seek_target wC3Queue 3 ⟨false, false, false⟩ = none ↔
      ∀ p ∈ wC3Queue.packets, ¬ fst_adm false 3 p) ∧
    ∀ t, find_seek_target wC3Queue 3 ⟨false, false, false⟩ = some t →
      (t ∈ wC3Queue.packets ∧ fst_adm false 3 t) ∧
      ∀ p ∈ wC3Queue.packets, fst_adm false 3 p →
        fst_pref false 3 t.kf_seek_pts p.kf_seek_pts :=
  C3_find_seek_target_nearest wC3Queue 3 ⟨false, false, false⟩ (by
    intro p hp
    have hp2 : p ∈ [wPacket 1 5 5 0 10 true 5] := hp
    rw [List.mem_singleton] at hp2
    subst hp2
    constructor
    · show (5 : ℚ) - 3 ≠ MP_NOPTS_VALUE
      norm_num [MP_NOPTS_VALUE]
    · show -((5 : ℚ) - 3) ≠ MP_NOPTS_VALUE
      norm_num [MP_NOPTS_VALUE])

/-- C3 counterexample: without SEEK_FORWARD, when the queue's only keyframe
lies strictly after the target pts, find_seek_target returns that later
keyframe instead of null, contradicting the original claim that the result
is at or before pts (or null when no such packet exists). -/
theorem C3_claim_counterexample :
    (∀ p ∈ wC3Queue.packets, ¬(p.keyframe = true ∧ p.kf_seek_pts ≠ MP_NOPTS_VALUE ∧
        p.kf_seek_pts ≤ 3)) ∧
    find_seek_target wC3Queue 3 ⟨false, false, false⟩ = some (wPacket 1 5 5 0 10 true 5) := by
  decide

/-- Helper: filtering away a replaced element is filtering the list with the
element removed. -/
theorem filter_set_eraseIdx {α : Type} (p : α → Bool) :
    ∀ (l : List α) (i : ℕ) (x : α), p x = false →
      (l.set i x).filter p = (l.eraseIdx i).filter p := by
  intro l
  induction l with
  | nil => intro i x _; rfl
  | cons a t ih =>
    intro i x hx
    cases i with
    | zero =>
      show List.filter p (x :: t) = List.filter p t
      rw [List.filter_cons_of_neg (by simp [hx])]
    | succ j =>
      show List.filter p (a :: t.set j x) = List.filter p (a :: t.eraseIdx j)
      rw [List.filter_cons, List.filter_cons, ih j x hx]

/-- Helper: free_empty_cached_ranges on a state whose range list ends in the
current range cur filters the body and keeps cur. -/
theorem free_empty_concat (s : DemuxState) (L : List Range) (cur : Range)
    (hr : s.ranges = L ++ [cur]) :
    (free_empty_cached_ranges s).1 = { s with
      ranges := (L.filter (fun r => !decide (r.seek_start = MP_NOPTS_VALUE))) ++ [cur]
      total_bytes := subBytes s.total_bytes
        (((L.filter (fun r => decide (r.seek_start = MP_NOPTS_VALUE))).map
          rangePackets).flatten) } := by
  unfold free_empty_cached_ranges
  rw [hr]
  have hne : L ++ [cur] ≠ [] := by simp
  rw [if_neg hne]
  dsimp only
  rw [List.dropLast_concat, List.getLast?_concat]
  rfl

/-- C7: when attempt_range_joining aborts for a stream (checked here through
the goto-failed flag of the per-stream check loop), it reports no join, the
current range survives unchanged as the current range, and the candidate
range at index nidx is removed from the range list (the result body is a
sublist of the old body with the candidate erased). -/
theorem C7_join_failure_discards_candidate (s : DemuxState) (cur : Range) (nidx : ℕ)
    (hcur : s.ranges.getLast? = some cur)
    (hfind : findNextGo cur.seek_start cur.seek_end s.ranges.dropLast.enum none = some nidx)
    (hfail : (joinCheckGo (s.streams.zip (cur.queues.zip
        ((s.ranges.dropLast[nidx]?).getD emptyRange).queues)) [] []).2.2 = true) :
    (attempt_range_joining s).2 = false ∧
    ((attempt_range_joining s).1.ranges).getLast? = some cur ∧
    (attempt_range_joining s).1.ranges.Sublist
      (s.ranges.dropLast.eraseIdx nidx ++ [cur]) := by
  unfold attempt_range_joining
  rw [hcur]
  dsimp only
  rw [hfind]
  dsimp only
  rw [if_pos hfail]
  dsimp only
  rw [free_empty_concat _ _ _ rfl]
  dsimp only
  rw [filter_set_eraseIdx _ _ nidx _ (by simp [clearRange_seek_start])]
  refine ⟨rfl, List.getLast?_concat _, ?_⟩
  exact List.Sublist.append (List.filter_sublist _) (List.Sublist.refl _)

/-- Witness for C7: a two-range state whose only stream has no usable pos or
dts history, so the attempted join fails and the candidate is dropped. -/
theorem C7_join_failure_discards_candidate_witness :
    (attempt_range_joining wC7State).2 = false ∧
    ((attempt_range_joining wC7State).1.ranges).getLast? = some wC7Cur ∧
    (attempt_range_joining wC7State).1.ranges.Sublist
      (wC7State.ranges.dropLast.eraseIdx 0 ++ [wC7Cur]) :=
  C7_join_failure_discards_candidate wC7State wC7Cur 0 rfl
    (by
      show findNextGo 10 20 [(0, wC7Cand)] none = some 0
      norm_num [findNextGo, wC7Cand])
    (by decide)

/-- Helper: the packet-removal loop never removes the packet its reader_head
argument points at. -/
theorem pruneLoopGo_rh_not_removed (pid : ℕ) :
    ∀ (l : List Packet) (npt kl : Option ℕ),
      pid ∉ ((pruneLoopGo (some pid) npt kl l).removed.map Packet.pid) := by
  intro l
  induction l with
  | nil =>
    intro npt kl
    simp [pruneLoopGo]
  | cons dp rest ih =>
    intro npt kl
    by_cases h : (some pid : Option ℕ) = some dp.pid
    · simp only [pruneLoopGo, if_pos h]
      simp
    · simp only [pruneLoopGo, if_neg h]
      by_cases hd : npt = some dp.pid
      · simp only [if_pos hd]
        have hne : pid ≠ dp.pid := fun he => h (congrArg some he)
        simp [hne]
      · simp only [if_neg hd]
        intro hmem
        simp only [List.map_cons, List.mem_cons] at hmem
        rcases hmem with he | hm
        · exact h (congrArg some he)
        · exact ih _ _ hm

/-- Helper: every packet removed by the removal loop came from the queue. -/
theorem pruneLoopGo_removed_subset :
    ∀ (l : List Packet) (rh npt kl : Option ℕ),
      ∀ x ∈ (pruneLoopGo rh npt kl l).removed, x ∈ l := by
  intro l
  induction l with
  | nil =>
    intro rh npt kl x hx
    simp [pruneLoopGo] at hx
  | cons dp rest ih =>
    intro rh npt kl x hx
    by_cases h : rh = some dp.pid
    · simp only [pruneLoopGo, if_pos h] at hx
      exact absurd hx (List.not_mem_nil x)
    · simp only [pruneLoopGo, if_neg h] at hx
      by_cases hd : npt = some dp.pid
      · simp only [if_pos hd] at hx
        have hxd : x = dp := List.mem_singleton.mp hx
        subst hxd
        exact List.mem_cons_self x rest
      · simp only [if_neg hd] at hx
        rcases List.mem_cons.mp hx with he | hm
        · subst he
          exact List.mem_cons_self x rest
        · exact List.mem_cons_of_mem dp (ih _ _ _ x hm)

/-- Helper: the packets surviving the removal loop form a sublist (in fact a
suffix) of the queue. -/
theorem pruneLoopGo_remaining_sublist :
    ∀ (l : List Packet) (rh npt kl : Option ℕ),
      (pruneLoopGo rh npt kl l).remaining.Sublist l := by
  intro l
  induction l with
  | nil =>
    intro rh npt kl
    simp [pruneLoopGo]
  | cons dp rest ih =>
    intro rh npt kl
    by_cases h : rh = some dp.pid
    · simp only [pruneLoopGo, if_pos h]
      exact List.Sublist.refl _
    · simp only [pruneLoopGo, if_neg h]
      by_cases hd : npt = some dp.pid
      · simp only [if_pos hd]
        exact List.Sublist.cons dp (List.Sublist.refl rest)
      · simp only [if_neg hd]
        exact List.Sublist.cons dp (ih _ _ _)

/-- Helper: the reader_head packet stays in the queue after the removal
loop runs. -/
theorem pruneLoopGo_rh_mem_remaining (pid : ℕ) :
    ∀ (l : List Packet) (npt kl : Option ℕ),
      pid ∈ l.map Packet.pid →
      pid ∈ (pruneLoopGo (some pid) npt kl l).remaining.map Packet.pid := by
  intro l
  induction l with
  | nil =>
    intro npt kl h
    exact absurd h (by simp)
  | cons dp rest ih =>
    intro npt kl h
    by_cases hh : (some pid : Option ℕ) = some dp.pid
    · simp only [pruneLoopGo, if_pos hh]
      exact h
    · have hne : pid ≠ dp.pid := fun he => hh (congrArg some he)
      have hrest : pid ∈ rest.map Packet.pid := by
        simp only [List.map_cons, List.mem_cons] at h
        rcases h with he | hm
        · exact absurd he hne
        · exact hm
      simp only [pruneLoopGo, if_neg hh]
      by_cases hd : npt = some dp.pid
      · simp only [if_pos hd]
        exact hrest
      · simp only [if_neg hd]
        exact ih _ _ hrest

/-- Helper: computeNpt never changes the queue's packets. -/
theorem computeNpt_packets (q : Queue) : (computeNpt q).packets = q.packets := by
  unfold computeNpt
  cases hq : q.packets with
  | nil => exact hq
  | cons p0 rest => rfl

/-- Helper: updateRangeSeek never changes the range's queues. -/
theorem updateRangeSeek_queues (sels : List Bool) (r : Range) :
    (updateRangeSeek sels r).queues = r.queues := rfl

/-- Helper: sublists of lists of lists flatten to sublists. -/
theorem flatten_sublist_of_sublist {α : Type} {L1 L2 : List (List α)}
    (h : L1.Sublist L2) : L1.flatten.Sublist L2.flatten := by
  induction h with
  | slnil => exact List.Sublist.refl _
  | cons a _ ih => exact ih.trans (List.sublist_append_right _ _)
  | cons₂ a _ ih => exact List.Sublist.append (List.Sublist.refl a) ih

/-- Helper: two different positions of a list with duplicate-free flattening
hold disjoint lists. -/
theorem nodup_flatten_disjoint {α : Type} : ∀ (L : List (List α)) (i j : ℕ) (x : α),
    L.flatten.Nodup → i ≠ j → x ∈ (L[i]?).getD [] → x ∈ (L[j]?).getD [] → False := by
  intro L
  induction L with
  | nil =>
    intro i j x _ _ hi _
    exact absurd hi (by simp)
  | cons a t ih =>
    intro i j x hnd hij hi hj
    have hnd1 : (a ++ t.flatten).Nodup := hnd
    have hnd2 := List.nodup_append.mp hnd1
    cases i with
    | zero =>
      cases j with
      | zero => exact hij rfl
      | succ j2 =>
        have hxa : x ∈ a := by simpa using hi
        have hj2 : x ∈ (t[j2]?).getD [] := by simpa using hj
        have hxt : x ∈ t.flatten := by
          cases ht : t[j2]? with
          | none =>
            rw [ht] at hj2
            exact absurd hj2 (List.not_mem_nil x)
          | some l =>
            rw [ht] at hj2
            exact List.mem_flatten.mpr ⟨l, List.getElem?_mem ht, hj2⟩
        exact hnd2.2.2 hxa hxt
    | succ i2 =>
      cases j with
      | zero =>
        have hxa : x ∈ a := by simpa using hj
        have hi2 : x ∈ (t[i2]?).getD [] := by simpa using hi
        have hxt : x ∈ t.flatten := by
          cases ht : t[i2]? with
          | none =>
            rw [ht] at hi2
            exact absurd hi2 (List.not_mem_nil x)
          | some l =>
            rw [ht] at hi2
            exact List.mem_flatten.mpr ⟨l, List.getElem?_mem ht, hi2⟩
        exact hnd2.2.2 hxa hxt
      | succ j2 =>
        have hi2 : x ∈ (t[i2]?).getD [] := by simpa using hi
        have hj2 : x ∈ (t[j2]?).getD [] := by simpa using hj
        exact ih i2 j2 x hnd2.2.1 (fun he => hij (congrArg Nat.succ he)) hi2 hj2

/-- Helper: replacing one element by one whose image is a sublist keeps the
flattened image a sublist. -/
theorem flatten_map_set_sub {α β : Type} (f : α → List β) :
    ∀ (l : List α) (i : ℕ) (x : α),
      (f x).Sublist (f ((l[i]?).getD x)) →
      ((l.set i x).map f).flatten.Sublist ((l.map f).flatten) := by
  intro l
  induction l with
  | nil => intro i x _; exact List.Sublist.refl _
  | cons a t ih =>
    intro i x hx
    cases i with
    | zero =>
      have hx2 : (f x).Sublist (f a) := by simpa using hx
      show (f x ++ ((t.map f).flatten)).Sublist (f a ++ ((t.map f).flatten))
      exact List.Sublist.append hx2 (List.Sublist.refl _)
    | succ j =>
      have hx2 : (f x).Sublist (f ((t[j]?).getD x)) := by simpa using hx
      show (f a ++ (((t.set j x).map f).flatten)).Sublist (f a ++ ((t.map f).flatten))
      exact List.Sublist.append (List.Sublist.refl _) (ih j x hx2)

/-- Helper: free_empty_cached_ranges never touches the streams. -/
theorem free_empty_streams (s : DemuxState) :
    ((free_empty_cached_ranges s).1).streams = s.streams := by
  unfold free_empty_cached_ranges
  split
  · rfl
  · rfl

/-- Helper: free_empty_cached_ranges keeps the current (last) range. -/
theorem free_empty_getLast (s : DemuxState) (h : s.ranges ≠ []) :
    ((free_empty_cached_ranges s).1).ranges.getLast? = s.ranges.getLast? := by
  rw [free_empty_concat s s.ranges.dropLast (s.ranges.getLast h)
    (List.dropLast_append_getLast h).symm]
  dsimp only
  rw [List.getLast?_concat, List.getLast?_eq_getLast s.ranges h]

/-- Helper: free_empty_cached_ranges only drops ranges. -/
theorem free_empty_ranges_sublist (s : DemuxState) :
    ((free_empty_cached_ranges s).1).ranges.Sublist s.ranges := by
  by_cases h : s.ranges = []
  · unfold free_empty_cached_ranges
    rw [if_pos h]
  · rw [free_empty_concat s s.ranges.dropLast (s.ranges.getLast h)
      (List.dropLast_append_getLast h).symm]
    dsimp only
    conv_rhs => rw [← List.dropLast_append_getLast h]
    exact List.Sublist.append (List.filter_sublist _) (List.Sublist.refl _)

/-- Helper: every packet freed by free_empty_cached_ranges came from a
non-current range. -/
theorem free_empty_freed_subset (s : DemuxState) :
    ∀ x ∈ (free_empty_cached_ranges s).2,
      x ∈ ((s.ranges.dropLast.map rangePackets).flatten) := by
  intro x hx
  unfold free_empty_cached_ranges at hx
  by_cases h : s.ranges = []
  · rw [if_pos h] at hx
    exact absurd hx (List.not_mem_nil x)
  · rw [if_neg h] at hx
    dsimp only at hx
    obtain ⟨ps, hps, hxps⟩ := List.mem_flatten.mp hx
    obtain ⟨r, hr, hrps⟩ := List.mem_map.mp hps
    exact List.mem_flatten.mpr ⟨ps, List.mem_map.mpr ⟨r, List.mem_of_mem_filter hr, hrps⟩, hxps⟩

/-- Helper: a range's ids are the pids of its packets. -/
theorem rangeIds_eq (r : Range) : rangeIds r = (rangePackets r).map Packet.pid := by
  unfold rangeIds rangePackets queueIds
  rw [List.map_flatten, List.map_map]
  rfl

/-- Helper: an id buffered in the current (last) range occurs in no earlier
range of a duplicate-free state. -/
theorem last_disjoint_body (s : DemuxState) (hnd : (allIds s).Nodup) (hne : s.ranges ≠ [])
    (pid : ℕ) (hmem : pid ∈ rangeIds (s.ranges.getLast hne)) :
    pid ∉ ((s.ranges.dropLast).map rangeIds).flatten := by
  intro hbody
  have hdecomp := List.dropLast_append_getLast hne
  have hnd2 : (((s.ranges.dropLast ++ [s.ranges.getLast hne]).map rangeIds).flatten).Nodup := by
    rw [hdecomp]
    exact hnd
  rw [List.map_append, List.flatten_append] at hnd2
  have h3 := List.nodup_append.mp hnd2
  exact h3.2.2 hbody (by simpa using hmem)

/-- Helper: two different queue positions of a range with duplicate-free ids
hold disjoint id sets. -/
theorem queue_disjoint (r : Range) (hnd : (rangeIds r).Nodup) (i j : ℕ) (hij : i ≠ j)
    (pid : ℕ) (hi : pid ∈ queueIds ((r.queues[i]?).getD clear_queue))
    (hj : pid ∈ queueIds ((r.queues[j]?).getD clear_queue)) : False := by
  apply nodup_flatten_disjoint (r.queues.map queueIds) i j pid hnd hij
  · rw [List.getElem?_map]
    cases hq : r.queues[i]? with
    | none =>
      rw [hq] at hi
      exact absurd hi (List.not_mem_nil pid)
    | some qq =>
      rw [hq] at hi
      exact hi
  · rw [List.getElem?_map]
    cases hq : r.queues[j]? with
    | none =>
      rw [hq] at hj
      exact absurd hj (List.not_mem_nil pid)
    | some qq =>
      rw [hq] at hj
      exact hj

/-- Helper: a conditional lazy scan never changes the packets. -/
theorem ite_computeNpt_packets (c : Prop) [Decidable c] (q : Queue) :
    (if c then computeNpt q else q).packets = q.packets := by
  split
  · exact computeNpt_packets q
  · rfl

/-- Helper: a conditional update_seek_ranges never changes the queues. -/
theorem ite_updateRangeSeek_queues (c : Prop) [Decidable c] (sels : List Bool) (r : Range) :
    (if c then updateRangeSeek sels r else r).queues = r.queues := by
  split
  · rfl
  · rfl

/-- Helper: the current range is the last range. -/
theorem currentRange_eq_getLast (s : DemuxState) (h : s.ranges ≠ []) :
    currentRange s = s.ranges.getLast h := by
  unfold currentRange
  rw [List.getLast?_eq_getLast s.ranges h]
  rfl

/-- Helper: an id of some queue of a range is an id of the range. -/
theorem mem_rangeIds_of_queue (r : Range) (n : ℕ) (pid : ℕ)
    (h : pid ∈ queueIds ((r.queues[n]?).getD clear_queue)) : pid ∈ rangeIds r := by
  cases hq : r.queues[n]? with
  | none =>
    rw [hq] at h
    exact absurd h (List.not_mem_nil pid)
  | some qq =>
    rw [hq] at h
    exact List.mem_flatten.mpr ⟨queueIds qq, List.mem_map.mpr ⟨qq, List.getElem?_mem hq, rfl⟩, h⟩

/-- Helper: images of members sit in the flattened image. -/
theorem mem_flatten_map_of_mem {α β : Type} (f : α → List β) {l : List α} {r : α} {x : β}
    (hr : r ∈ l) (hx : x ∈ f r) : x ∈ (l.map f).flatten :=
  List.mem_flatten.mpr ⟨f r, List.mem_map.mpr ⟨r, hr, rfl⟩, hx⟩

/-- Helper: the prepared victim queue holds the original packets. -/
theorem pruneVictimQ1_packets (s : DemuxState) (r0 : Range) (V : ℕ) :
    (pruneVictimQ1 s r0 V).packets = ((r0.queues[V]?).getD clear_queue).packets := by
  unfold pruneVictimQ1
  dsimp only
  exact ite_computeNpt_packets _ _

/-- Helper: the post-loop victim queue holds the surviving packets. -/
theorem pruneQ2_packets (s : DemuxState) (r0 : Range) (V : ℕ) :
    (pruneQ2 s r0 V).packets = (pruneRes s r0 V).remaining := rfl

/-- Helper: the pruned oldest range replaces exactly the victim queue. -/
theorem pruneR0c_queues (s : DemuxState) (r0 : Range) (V : ℕ) :
    (pruneR0c s r0 V).queues = r0.queues.set V (pruneQ2 s r0 V) := by
  unfold pruneR0c
  dsimp only
  rw [ite_updateRangeSeek_queues]
  dsimp only
  rw [List.set_set]

/-- Helper: pruning the oldest range only drops ids from it. -/
theorem pruneR0c_ids_sub (s : DemuxState) (r0 : Range) (V : ℕ) :
    (rangeIds (pruneR0c s r0 V)).Sublist (rangeIds r0) := by
  unfold rangeIds
  rw [pruneR0c_queues]
  apply flatten_map_set_sub
  cases hq : r0.queues[V]? with
  | none =>
    exact List.Sublist.refl _
  | some qq =>
    show ((pruneQ2 s r0 V).packets.map Packet.pid).Sublist (qq.packets.map Packet.pid)
    apply List.Sublist.map
    show (pruneRes s r0 V).remaining.Sublist qq.packets
    have h3 : (pruneVictimQ1 s r0 V).packets = qq.packets := by
      rw [pruneVictimQ1_packets, hq]
      rfl
    unfold pruneRes
    dsimp only
    rw [← h3]
    exact pruneLoopGo_remaining_sublist _ _ _ _

/-- Helper: a set reader_head points into the stream's current queue. -/
theorem rh_mem_current (s : DemuxState) (n pid : ℕ)
    (hrh : ∀ m ∈ List.range s.streams.length, rhOkB s m = true)
    (hn : ((s.streams[n]?).getD defaultStream).reader_head = some pid) :
    pid ∈ queueIds (currentQueue s n) := by
  have hnlt : n < s.streams.length := by
    by_contra hge
    rw [List.getElem?_eq_none (Nat.le_of_not_lt hge)] at hn
    exact Option.noConfusion hn
  have hok := hrh n (List.mem_range.mpr hnlt)
  unfold rhOkB at hok
  rw [hn] at hok
  exact of_decide_eq_true hok

/-- Helper: one prune iteration never removes any stream's reader_head
packet (the victim stream is protected by the loop guard, other streams by
pointer-identity disjointness). -/
theorem prune_removed_safe (s : DemuxState) (r0 : Range) (rest : List Range) (V : ℕ)
    (hr : s.ranges = r0 :: rest)
    (hnd : (allIds s).Nodup)
    (hrh : ∀ m ∈ List.range s.streams.length, rhOkB s m = true)
    (n pid : ℕ)
    (hn : ((s.streams[n]?).getD defaultStream).reader_head = some pid) :
    pid ∉ (pruneRes s r0 V).removed.map Packet.pid := by
  by_cases hnV : n = V
  · subst hnV
    unfold pruneRes
    dsimp only
    rw [hn]
    exact pruneLoopGo_rh_not_removed pid _ _ _
  · intro hmem
    obtain ⟨x, hxrem, hxpid⟩ := List.mem_map.mp hmem
    have hxq : x ∈ (pruneVictimQ1 s r0 V).packets :=
      pruneLoopGo_removed_subset _ _ _ _ x hxrem
    have hpidV : pid ∈ queueIds ((r0.queues[V]?).getD clear_queue) := by
      show pid ∈ ((r0.queues[V]?).getD clear_queue).packets.map Packet.pid
      rw [← pruneVictimQ1_packets s r0 V]
      exact List.mem_map.mpr ⟨x, hxq, hxpid⟩
    have hpidn : pid ∈ queueIds (currentQueue s n) := rh_mem_current s n pid hrh hn
    cases rest with
    | nil =>
      have hcq0 : currentQueue s n = ((r0.queues[n]?).getD clear_queue) := by
        unfold currentQueue currentRange
        rw [hr]
        rfl
      rw [hcq0] at hpidn
      have hnd0 : (rangeIds r0).Nodup := by
        have h2 : allIds s = rangeIds r0 ++ (((List.map rangeIds ([] : List Range))).flatten) := by
          unfold allIds
          rw [hr]
          rfl
        rw [h2] at hnd
        exact (List.nodup_append.mp hnd).1
      exact queue_disjoint r0 hnd0 n V hnV pid hpidn hpidV
    | cons r1 rest2 =>
      have hne2 : s.ranges ≠ [] := by rw [hr]; exact List.cons_ne_nil _ _
      have hlast : pid ∈ rangeIds (s.ranges.getLast hne2) := by
        have h5 := mem_rangeIds_of_queue (currentRange s) n pid hpidn
        rwa [currentRange_eq_getLast s hne2] at h5
      have hr0mem : r0 ∈ s.ranges.dropLast := by
        rw [hr]
        exact List.mem_cons_self _ _
      exact absurd (mem_flatten_map_of_mem rangeIds hr0mem (mem_rangeIds_of_queue r0 V pid hpidV))
        (last_disjoint_body s hnd hne2 pid hlast)

/-- Helper: the empty-range sweep after a prune iteration never frees any
stream's reader_head packet (it only frees non-current ranges). -/
theorem prune_freed_safe (s : DemuxState) (r0 : Range) (rest : List Range) (V : ℕ)
    (hr : s.ranges = r0 :: rest) (hrest : rest ≠ [])
    (hnd : (allIds s).Nodup)
    (hrh : ∀ m ∈ List.range s.streams.length, rhOkB s m = true)
    (n pid : ℕ)
    (hn : ((s.streams[n]?).getD defaultStream).reader_head = some pid) :
    pid ∉ ((free_empty_cached_ranges (pruneS1 s r0 rest V)).2).map Packet.pid := by
  have hpidn : pid ∈ queueIds (currentQueue s n) := rh_mem_current s n pid hrh hn
  have hne2 : s.ranges ≠ [] := by rw [hr]; exact List.cons_ne_nil _ _
  have hlast : pid ∈ rangeIds (s.ranges.getLast hne2) := by
    have h5 := mem_rangeIds_of_queue (currentRange s) n pid hpidn
    rwa [currentRange_eq_getLast s hne2] at h5
  intro hmem
  obtain ⟨x, hxf, hxpid⟩ := List.mem_map.mp hmem
  have hx2 := free_empty_freed_subset _ x hxf
  have hs1r : (pruneS1 s r0 rest V).ranges = pruneR0c s r0 V :: rest := rfl
  rw [hs1r] at hx2
  cases rest with
  | nil => exact absurd rfl hrest
  | cons r1 rest2 =>
    have hx3 : x ∈ (rangePackets (pruneR0c s r0 V)) ++
        ((((r1 :: rest2).dropLast).map rangePackets).flatten) := hx2
    rcases List.mem_append.mp hx3 with hxa | hxb
    · have hpid0 : pid ∈ rangeIds (pruneR0c s r0 V) := by
        rw [rangeIds_eq]
        exact List.mem_map.mpr ⟨x, hxa, hxpid⟩
      have hpidr0 : pid ∈ rangeIds r0 := (pruneR0c_ids_sub s r0 V).subset hpid0
      have hr0mem : r0 ∈ s.ranges.dropLast := by
        rw [hr]
        exact List.mem_cons_self _ _
      exact absurd (mem_flatten_map_of_mem rangeIds hr0mem hpidr0)
        (last_disjoint_body s hnd hne2 pid hlast)
    · obtain ⟨ps, hps, hxps⟩ := List.mem_flatten.mp hxb
      obtain ⟨r, hrmem, hrps⟩ := List.mem_map.mp hps
      have hpidr : pid ∈ rangeIds r := by
        rw [rangeIds_eq]
        exact List.mem_map.mpr ⟨x, by rw [hrps]; exact hxps, hxpid⟩
      have hrmem2 : r ∈ s.ranges.dropLast := by
        rw [hr]
        exact List.mem_cons_of_mem r0 hrmem
      exact absurd (mem_flatten_map_of_mem rangeIds hrmem2 hpidr)
        (last_disjoint_body s hnd hne2 pid hlast)

/-- Helper: one prune iteration preserves the well-formedness invariant. -/
theorem pruneS1_wf (s : DemuxState) (r0 : Range) (rest : List Range) (V : ℕ)
    (hr : s.ranges = r0 :: rest) (hwf : StateWF s) :
    StateWF (pruneS1 s r0 rest V) := by
  obtain ⟨hnd, hrh, hne, hlen⟩ := hwf
  have hs1r : (pruneS1 s r0 rest V).ranges = pruneR0c s r0 V :: rest := rfl
  have hs1s : (pruneS1 s r0 rest V).streams = s.streams := rfl
  refine ⟨?_, ?_, ?_, ?_⟩
  · have h1 : allIds (pruneS1 s r0 rest V)
        = rangeIds (pruneR0c s r0 V) ++ ((rest.map rangeIds).flatten) := by
      unfold allIds
      rw [hs1r]
      rfl
    have h2 : allIds s = rangeIds r0 ++ ((rest.map rangeIds).flatten) := by
      unfold allIds
      rw [hr]
      rfl
    rw [h1]
    exact List.Nodup.sublist
      (List.Sublist.append (pruneR0c_ids_sub s r0 V) (List.Sublist.refl _)) (h2 ▸ hnd)
  · intro n hn
    rw [hs1s] at hn
    have hok := hrh n hn
    unfold rhOkB at hok ⊢
    rw [hs1s]
    cases hrhn : ((s.streams[n]?).getD defaultStream).reader_head with
    | none =>
      rfl
    | some pid =>
      rw [hrhn] at hok
      have hmem : pid ∈ queueIds (currentQueue s n) := of_decide_eq_true hok
      apply decide_eq_true
      cases rest with
      | nil =>
        have hcq1 : currentQueue (pruneS1 s r0 [] V) n
            = (((pruneR0c s r0 V).queues[n]?).getD clear_queue) := by
          unfold currentQueue currentRange
          rw [hs1r]
          rfl
        have hcq0 : currentQueue s n = ((r0.queues[n]?).getD clear_queue) := by
          unfold currentQueue currentRange
          rw [hr]
          rfl
        rw [hcq1, pruneR0c_queues]
        rw [hcq0] at hmem
        by_cases hnV : n = V
        · subst hnV
          by_cases hlt : n < r0.queues.length
          · rw [List.getElem?_set_self hlt]
            show pid ∈ ((pruneRes s r0 n).remaining.map Packet.pid)
            unfold pruneRes
            dsimp only
            rw [hrhn]
            apply pruneLoopGo_rh_mem_remaining
            rw [show (pruneVictimQ1 s r0 n).packets
              = ((r0.queues[n]?).getD clear_queue).packets from pruneVictimQ1_packets s r0 n]
            exact hmem
          · have hnone : r0.queues[n]? = none :=
              List.getElem?_eq_none (Nat.le_of_not_lt hlt)
            rw [hnone] at hmem
            exact absurd hmem (List.not_mem_nil pid)
        · rw [List.getElem?_set_ne (fun he => hnV he.symm)]
          exact hmem
      | cons r1 rest2 =>
        have hcur : currentRange (pruneS1 s r0 (r1 :: rest2) V) = currentRange s := by
          unfold currentRange
          rw [hs1r, hr, List.getLast?_cons_cons, List.getLast?_cons_cons]
        unfold currentQueue
        rw [hcur]
        exact hmem
  · intro hx
    rw [hs1r] at hx
    exact List.noConfusion hx
  · intro r hrm
    rw [hs1r] at hrm
    rw [hs1s]
    rcases List.mem_cons.mp hrm with he | hm
    · subst he
      rw [pruneR0c_queues, List.length_set]
      exact hlen r0 (by rw [hr]; exact List.mem_cons_self _ _)
    · exact hlen r (by rw [hr]; exact List.mem_cons_of_mem r0 hm)

/-- Helper: the empty-range sweep preserves the well-formedness invariant. -/
theorem free_empty_wf (s : DemuxState) (hwf : StateWF s) :
    StateWF ((free_empty_cached_ranges s).1) := by
  obtain ⟨hnd, hrh, hne, hlen⟩ := hwf
  refine ⟨?_, ?_, ?_, ?_⟩
  · have h1 := free_empty_ranges_sublist s
    have h2 : (allIds ((free_empty_cached_ranges s).1)).Sublist (allIds s) := by
      unfold allIds
      exact flatten_sublist_of_sublist (List.Sublist.map rangeIds h1)
    exact List.Nodup.sublist h2 hnd
  · intro n hn
    have hs := free_empty_streams s
    rw [hs] at hn
    have hok := hrh n hn
    have hcr : currentRange ((free_empty_cached_ranges s).1) = currentRange s := by
      unfold currentRange
      rw [free_empty_getLast s hne]
    unfold rhOkB at hok ⊢
    unfold currentQueue currentRange at hok ⊢
    rw [hs, free_empty_getLast s hne]
    exact hok
  · intro hx
    have h5 := free_empty_getLast s hne
    rw [hx] at h5
    rw [List.getLast?_eq_getLast s.ranges hne] at h5
    exact Option.noConfusion h5
  · intro r hrm
    have h1 := (free_empty_ranges_sublist s).subset hrm
    rw [free_empty_streams]
    exact hlen r h1

/-- Helper: one successful prune iteration keeps the streams, preserves
well-formedness, and removes no reader_head packet. -/
theorem pruneIter_sound (s s' : DemuxState) (rem : List Packet)
    (hwf : StateWF s) (h : pruneIter s = some (s', rem)) :
    s'.streams = s.streams ∧ StateWF s' ∧
    ∀ (n pid : ℕ), ((s.streams[n]?).getD defaultStream).reader_head = some pid →
      pid ∉ rem.map Packet.pid := by
  obtain ⟨hnd, hrh, hne, hlen⟩ := hwf
  unfold pruneIter at h
  cases hr : s.ranges with
  | nil => exact absurd hr hne
  | cons r0 rest =>
    rw [hr] at h
    dsimp only at h
    cases hv : pickVictimGo s.seekable_cache ((r0.queues.zip s.streams).enum.map
        (fun p => (p.1, p.2.1, p.2.2))) none with
    | none =>
      rw [hv] at h
      exact Option.noConfusion h
    | some v =>
      rw [hv] at h
      dsimp only at h
      split at h
      next hcond =>
        injection h with h1
        have hs'e : (free_empty_cached_ranges (pruneS1 s r0 rest v.1)).1 = s' :=
          congrArg Prod.fst h1
        have hreme : (pruneRes s r0 v.1).removed
            ++ (free_empty_cached_ranges (pruneS1 s r0 rest v.1)).2 = rem :=
          congrArg Prod.snd h1
        subst hs'e
        subst hreme
        refine ⟨?_, ?_, ?_⟩
        · rw [free_empty_streams]
          rfl
        · exact free_empty_wf _ (pruneS1_wf s r0 rest v.1 hr ⟨hnd, hrh, hne, hlen⟩)
        · intro n pid hn hmem
          rw [List.map_append] at hmem
          rcases List.mem_append.mp hmem with hm1 | hm2
          · exact prune_removed_safe s r0 rest v.1 hr hnd hrh n pid hn hm1
          · exact prune_freed_safe s r0 rest v.1 hr hcond.1 hnd hrh n pid hn hm2
      next hcond =>
        injection h with h1
        have hs'e : pruneS1 s r0 rest v.1 = s' := congrArg Prod.fst h1
        have hreme : (pruneRes s r0 v.1).removed = rem := congrArg Prod.snd h1
        subst hs'e
        subst hreme
        refine ⟨rfl, pruneS1_wf s r0 rest v.1 hr ⟨hnd, hrh, hne, hlen⟩, ?_⟩
        intro n pid hn
        exact prune_removed_safe s r0 rest v.1 hr hnd hrh n pid hn

/-- C2: the packet a stream's reader_head points at is never among the
packets freed by prune_old_packets, and it is still in that stream's current
queue afterwards (under the cache invariants: faithful pointer identity,
reader_heads pointing into the current queues, a nonempty range list, one
queue per stream per range). -/
theorem C2_prune_never_frees_reader_head (fuel : ℕ) :
    ∀ (s : DemuxState) (n pid : ℕ), StateWF s →
      ((s.streams[n]?).getD defaultStream).reader_head = some pid →
      pid ∉ ((prune_old_packets fuel s).2.map Packet.pid) ∧
      pid ∈ queueIds (currentQueue (prune_old_packets fuel s).1 n) := by
  induction fuel with
  | zero =>
    intro s n pid hwf hn
    exact ⟨by simp [prune_old_packets], rh_mem_current s n pid hwf.2.1 hn⟩
  | succ fuel ih =>
    intro s n pid hwf hn
    unfold prune_old_packets
    by_cases hb : szSub s.total_bytes s.fw_bytes > pruneMax s
    · rw [if_pos hb]
      cases hp : pruneIter s with
      | none =>
        dsimp only
        exact ⟨by simp, rh_mem_current s n pid hwf.2.1 hn⟩
      | some sr =>
        obtain ⟨s2, rem2⟩ := sr
        dsimp only
        obtain ⟨hss, hwf2, hsafe⟩ := pruneIter_sound s s2 rem2 hwf hp
        have hn2 : ((s2.streams[n]?).getD defaultStream).reader_head = some pid := by
          rw [hss]
          exact hn
        have hrec := ih s2 n pid hwf2 hn2
        refine ⟨?_, hrec.2⟩
        intro hmem
        rw [List.map_append] at hmem
        rcases List.mem_append.mp hmem with hm1 | hm2
        · exact hsafe n pid hn hm1
        · exact hrec.1 hm2
    · rw [if_neg hb]
      exact ⟨by simp, rh_mem_current s n pid hwf.2.1 hn⟩

/-- Witness for C2 at a one-stream state over the byte budget whose queued
packet is the reader_head packet. -/
theorem C2_prune_never_frees_reader_head_witness :
    1 ∉ ((prune_old_packets 1 wOvState).2.map Packet.pid) ∧
    1 ∈ queueIds (currentQueue (prune_old_packets 1 wOvState).1 0) :=
  C2_prune_never_frees_reader_head 1 wOvState 0 1
    ⟨by decide, by decide, by decide, by decide⟩ rfl

/-- C9: After demux_flush completes, every queue in every range is empty and
total_bytes = 0 (assuming the recorded totals match the buffered packets and
the size_t counters are in range); consequently running flush twice yields
the same state as running it once. -/
theorem C9_flush_empties_and_idempotent (s : DemuxState)
    (h1 : s.total_bytes = sumSizes s) (h2 : s.total_bytes < W64)
    (h3 : s.fw_bytes < W64) :
    (∀ r ∈ (demux_flush s).ranges, ∀ q ∈ r.queues, q.packets = []) ∧
    (demux_flush s).total_bytes = 0 ∧
    demux_flush (demux_flush s) = demux_flush s := by
  by_cases h : s.ranges = []
  · have hfnil := demux_flush_eq_of_nil s h
    have htot : s.total_bytes = 0 := by
      rw [h1]
      show ((allPackets s).map demux_packet_estimate_total_size).sum = 0
      rw [show allPackets s = [] from by unfold allPackets; rw [h]; rfl]
      rfl
    refine ⟨?_, ?_, ?_⟩
    · intro r hr
      rw [hfnil] at hr
      exact absurd hr (List.not_mem_nil r)
    · rw [hfnil]
      show (clear_reader_state s).total_bytes = 0
      exact htot
    · rw [hfnil]
      rw [demux_flush_eq_of_nil { clear_reader_state s with ranges := ([] : List Range) } rfl]
      have h5 : clear_reader_state { clear_reader_state s with ranges := ([] : List Range) }
          = { clear_reader_state s with ranges := ([] : List Range) } := by
        apply clear_reader_state_fixed
        · show (s.streams.map ds_clear_reader_state).map ds_clear_reader_state
            = s.streams.map ds_clear_reader_state
          rw [List.map_map]
          exact List.map_congr_left fun a _ => ds_clear_idem a
        · intro d hd
          have hd2 : d ∈ s.streams.map ds_clear_reader_state := hd
          obtain ⟨d0, _, hd0⟩ := List.mem_map.mp hd2
          exact hd0 ▸ ds_clear_fw d0
        · show s.streams.foldl (fun a d => szSub a d.fw_bytes) s.fw_bytes < W64
          exact foldl_szSub_fw_lt s.streams s.fw_bytes h3
        · rfl
        · rfl
      rw [h5]
  · have hf := demux_flush_eq_of_ne_nil s h
    refine ⟨?_, ?_, ?_⟩
    · intro r hr q hq
      rw [hf] at hr
      have hr1 : r ∈ [clearRange (s.streams.map fun d => d.selected) (currentRange s)] := hr
      have hr2 : r = clearRange (s.streams.map fun d => d.selected) (currentRange s) :=
        List.mem_singleton.mp hr1
      rw [hr2, clearRange_queues] at hq
      obtain ⟨q0, _, hq0⟩ := List.mem_map.mp hq
      have hq1 : q = clear_queue := hq0.symm
      rw [hq1]
      rfl
    · rw [hf]
      show subBytes s.total_bytes (allPackets s) = 0
      exact subBytes_eq_zero (allPackets s) s.total_bytes (h1.trans rfl) h2
    · rw [hf]
      set c := clearRange (s.streams.map fun d => d.selected) (currentRange s) with hc
      set T := { clear_reader_state s with
        ranges := [c]
        total_bytes := subBytes s.total_bytes (allPackets s) } with hT
      have hTne : T.ranges ≠ [] := fun hx => List.noConfusion hx
      rw [demux_flush_eq_of_ne_nil T hTne]
      have h5 : clear_reader_state T = T := by
        apply clear_reader_state_fixed
        · show (s.streams.map ds_clear_reader_state).map ds_clear_reader_state
            = s.streams.map ds_clear_reader_state
          rw [List.map_map]
          exact List.map_congr_left fun a _ => ds_clear_idem a
        · intro d hd
          have hd2 : d ∈ s.streams.map ds_clear_reader_state := hd
          obtain ⟨d0, _, hd0⟩ := List.mem_map.mp hd2
          exact hd0 ▸ ds_clear_fw d0
        · show s.streams.foldl (fun a d => szSub a d.fw_bytes) s.fw_bytes < W64
          exact foldl_szSub_fw_lt s.streams s.fw_bytes h3
        · rfl
        · rfl
      rw [h5]
      have hsel2 : T.streams.map (fun d => d.selected) = s.streams.map (fun d => d.selected) := by
        show (s.streams.map ds_clear_reader_state).map (fun d => d.selected)
          = s.streams.map (fun d => d.selected)
        rw [List.map_map]
        exact List.map_congr_left fun a _ => rfl
      have hcur2 : currentRange T = c := rfl
      have hap2 : allPackets T = [] := by
        show ((T.ranges.map rangePackets).flatten) = []
        rw [show T.ranges = [c] from rfl, hc]
        simp only [List.map_cons, List.map_nil, rangePackets_clearRange, List.flatten_cons,
          List.flatten_nil, List.nil_append, List.append_nil]
      rw [hsel2, hcur2, hc, clearRange_idem, ← hc, hap2]
      rfl

/-- Witness for C9 at a concrete state holding one 100-byte packet whose
recorded totals match. -/
theorem C9_flush_empties_and_idempotent_witness :
    (∀ r ∈ (demux_flush wFlState).ranges, ∀ q ∈ r.queues, q.packets = []) ∧
    (demux_flush wFlState).total_bytes = 0 ∧
    demux_flush (demux_flush wFlState) = demux_flush wFlState :=
  C9_flush_empties_and_idempotent wFlState (by decide) (by decide) (by decide)

/-- C10: demux_add_packet called with a NULL packet, a zero-length packet, a
NULL stream, or a stream that was never registered (stream->ds NULL) frees the
packet and returns with the whole demuxer state unchanged. -/
theorem C10_add_packet_rejects_invalid (s : DemuxState) (stream : Option (Option ℕ))
    (dp : Option Packet)
    (h : stream = none ∨ stream = some none ∨ dp = none ∨ ∃ p, dp = some p ∧ p.len = 0) :
    demux_add_packet s stream dp = s := by
  rcases h with h | h | h | ⟨p, hdp, hlen⟩
  · subst h; cases dp <;> rfl
  · subst h; cases dp <;> rfl
  · subst h
    rcases stream with _ | (_ | n) <;> rfl
  · subst hdp
    rcases stream with _ | (_ | n)
    · rfl
    · rfl
    · simp [demux_add_packet, hlen]

/-- Witness for C10 at a concrete input: a stream pointer whose ds field is
NULL. -/
theorem C10_add_packet_rejects_invalid_witness :
    demux_add_packet wBase (some none) (some (wPacket 1 5 5 10 100 true MP_NOPTS_VALUE)) = wBase :=
  C10_add_packet_rejects_invalid wBase (some none) _ (Or.inr (Or.inl rfl))

/-- C8: when the demuxer's seekable flag is false (the source reported
unseekable and force-seekable did not override it at open time), demux_seek
returns 0 before taking the lock and leaves the whole state unchanged: no
reader state is cleared, no range is created, and no low-level seek is
queued. -/
theorem C8_seek_unseekable (s : DemuxState) (pts : ℚ) (fl : SeekFlags)
    (h : s.seekable = false) :
    demux_seek s pts fl = (0, s) := by
  simp [demux_seek, h]

/-- Witness for C8 at a concrete state. -/
theorem C8_seek_unseekable_witness :
    demux_seek { wBase with seekable := false } 3 ⟨false, false, false⟩ =
      (0, { wBase with seekable := false }) :=
  C8_seek_unseekable { wBase with seekable := false } 3 ⟨false, false, false⟩ rfl

/-- C6 (amended): a packet that arrives while its stream is refreshing is
always dropped — including the first packet whose dts/pos is strictly greater
than the recorded last_dts/last_pos — and the stream stays refreshing exactly
when the packet's dts (if the queue's dts history is correct, else its pos if
the pos history is correct) is strictly below the recorded last value;
appending resumes only with the packets that arrive after the stream left the
refreshing state. -/
theorem C6_refreshing_always_drops (s : DemuxState) (n : ℕ) (d : Stream) (dp : Packet)
    (hd : s.streams[n]? = some d) (href : d.refreshing = true) (hlen : dp.len ≠ 0) :
    currentQueue (demux_add_packet s (some (some n)) (some dp)) n = currentQueue s n ∧
    (demux_add_packet s (some (some n)) (some dp)).total_bytes = s.total_bytes ∧
    ((demux_add_packet s (some (some n)) (some dp)).streams[n]?).map Stream.refreshing =
      some (if (currentQueue s n).correct_dts = true then
              decide (dp.dts < (currentQueue s n).last_dts)
            else if (currentQueue s n).correct_pos = true then
              decide (dp.pos < (currentQueue s n).last_pos)
            else false) := by
  have hn : n < s.streams.length := by
    by_contra hc
    rw [List.getElem?_eq_none (Nat.le_of_not_lt hc)] at hd
    exact Option.noConfusion hd
  have hres : demux_add_packet s (some (some n)) (some dp)
      = setStream s n (apRefreshStream d (currentQueue s n) dp) := by
    simp [demux_add_packet, hlen, hn, addPacketLocked, hd, href]
  refine ⟨by rw [hres]; rfl, by rw [hres]; rfl, ?_⟩
  rw [hres]
  have hset : ((setStream s n (apRefreshStream d (currentQueue s n) dp)).streams[n]?) =
      some (apRefreshStream d (currentQueue s n) dp) := by
    simp [setStream, List.getElem?_set_self, hn]
  rw [hset]
  simp only [Option.map_some']
  unfold apRefreshStream
  rw [href]
  by_cases h1 : (currentQueue s n).correct_dts = true
  · simp [h1]
  · by_cases h2 : (currentQueue s n).correct_pos = true
    · simp [h1, h2]
    · simp [h1, h2]

/-- Witness for C6's amended statement: a refreshing stream with a correct
dts history dropping a packet with dts 9 over last_dts 5. -/
theorem C6_refreshing_always_drops_witness :
    currentQueue (demux_add_packet wRefState (some (some 0))
        (some (wPacket 7 9 9 60 100 true MP_NOPTS_VALUE))) 0 = currentQueue wRefState 0 ∧
    (demux_add_packet wRefState (some (some 0))
        (some (wPacket 7 9 9 60 100 true MP_NOPTS_VALUE))).total_bytes = wRefState.total_bytes ∧
    ((demux_add_packet wRefState (some (some 0))
        (some (wPacket 7 9 9 60 100 true MP_NOPTS_VALUE))).streams[0]?).map Stream.refreshing =
      some (if (currentQueue wRefState 0).correct_dts = true then
              decide ((wPacket 7 9 9 60 100 true MP_NOPTS_VALUE).dts <
                (currentQueue wRefState 0).last_dts)
            else if (currentQueue wRefState 0).correct_pos = true then
              decide ((wPacket 7 9 9 60 100 true MP_NOPTS_VALUE).pos <
                (currentQueue wRefState 0).last_pos)
            else false) :=
  C6_refreshing_always_drops wRefState 0 { wStream with refreshing := true }
    (wPacket 7 9 9 60 100 true MP_NOPTS_VALUE) rfl rfl (by decide)

/-- Counterexample to C6 as stated: in wRefState (refreshing, correct dts
history, last_dts = 5) a packet with dts 9 > 5 is claimed to be appended and
to end the refreshing state; the code drops it (the queue stays empty) — and
a packet with dts 5 = last_dts is claimed to leave the stream refreshing,
but the code clears the refreshing flag. -/
theorem C6_refresh_claim_counterexample :
    (currentQueue (demux_add_packet wRefState (some (some 0))
        (some (wPacket 7 9 9 60 100 true MP_NOPTS_VALUE))) 0).packets = [] ∧
    ((demux_add_packet wRefState (some (some 0))
        (some (wPacket 8 5 5 50 100 true MP_NOPTS_VALUE))).streams[0]?).map Stream.refreshing =
      some false := by
  constructor
  · decide
  · decide

end Demux
